import Mathlib

/-!
Verification of the document-structure classifier of the PDF-Extractor
repository (`src/utils/analysis_new.py`, the canonical OCR-tolerant revision
that the specification consolidates).

The Python module is shallowly embedded below.  Modelling conventions:

* Python `float` values (font sizes, bbox coordinates, scores) are modelled
  as exact rationals `ℚ`; the numeric literals of the source
  (`1.15`, `0.95`, ...) become the corresponding exact fractions.
* Python strings are modelled as `String` (a list of characters, matching
  Python's code-point based indexing/slicing).  Character classes
  (`\s`, `\d`, `[A-Za-z]`, `str.lower`, `str.isupper`, ...) are modelled over
  ASCII plus the explicit Unicode code-point ranges that the source spells
  out; this covers all inputs exercised here.
* The regular expressions of the source are compiled by hand into
  first-order matching functions; each definition records the regex it
  implements.
* `collections.Counter.most_common(1)` returns the first key (in first
  occurrence order) with maximal multiplicity; `dict` preserves insertion
  order; Python `sort`/`sorted` are stable.  These semantics are mirrored
  exactly (`counterKeys`, `mostCommon1`, `List.insertionSort`).
* `Counter([]).most_common(1)[0]` raises `IndexError`; the pipeline is
  therefore `Option`-valued and returns `none` exactly on that crash.
-/

attribute [local semireducible] Rat.mul Rat.add Rat.sub Rat.inv

set_option maxRecDepth 100000

/-! ### Python string primitives -/

/-- Python `\s` (ASCII fragment of the Unicode whitespace class). -/
def pyIsWS (c : Char) : Bool :=
  c == ' ' || c == '\t' || c == '\n' || c == '\r' || c == '\x0b' || c == '\x0c'

/-- Removes trailing whitespace, as the second half of Python `str.strip`. -/
def dropTrailWS (l : List Char) : List Char :=
  (l.reverse.dropWhile pyIsWS).reverse

/-- Python `str.strip()` on a character list. -/
def pyStripL (l : List Char) : List Char :=
  dropTrailWS (l.dropWhile pyIsWS)

/-- Python `str.strip()`. -/
def pyStripS (s : String) : String :=
  ⟨pyStripL s.data⟩

/-- Worker for `re.sub(r'\s+', ' ', text)`: the flag says whether the scan
is inside a whitespace run whose single replacement space was emitted. -/
def collapseWSAux : Bool → List Char → List Char
  | _, [] => []
  | inRun, c :: r =>
    if pyIsWS c then
      if inRun then collapseWSAux true r else ' ' :: collapseWSAux true r
    else c :: collapseWSAux false r

/-- Python `re.sub(r'\s+', ' ', text)`. -/
def collapseWSL (l : List Char) : List Char :=
  collapseWSAux false l

/-- The character class `[.,;:!?]`. -/
def isPunctC (c : Char) : Bool :=
  c == '.' || c == ',' || c == ';' || c == ':' || c == '!' || c == '?'

/-- CJK unified ideographs `一-鿿`. -/
def isCJKUnified (c : Char) : Bool :=
  0x4e00 ≤ c.toNat && c.toNat ≤ 0x9fff

/-- Hiragana `぀-ゟ`. -/
def isHiragana (c : Char) : Bool :=
  0x3040 ≤ c.toNat && c.toNat ≤ 0x309f

/-- Katakana `゠-ヿ`. -/
def isKatakana (c : Char) : Bool :=
  0x30a0 ≤ c.toNat && c.toNat ≤ 0x30ff

/-- Hangul syllables `가-힯`. -/
def isHangul (c : Char) : Bool :=
  0xac00 ≤ c.toNat && c.toNat ≤ 0xd7af

/-- Cyrillic `Ѐ-ӿ`. -/
def isCyrillic (c : Char) : Bool :=
  0x400 ≤ c.toNat && c.toNat ≤ 0x4ff

/-- Arabic block `؀-ۿ`. -/
def isArabicBlock (c : Char) : Bool :=
  0x600 ≤ c.toNat && c.toNat ≤ 0x6ff

/-- Worker for `re.sub(r'\s+([.,;:!?])', r'\1', text)`: `pend` is the
reversed run of whitespace read and not yet emitted; a punctuation mark
arriving after a non-empty run discards the run. -/
def subWsPunctAux (pend : List Char) : List Char → List Char
  | [] => pend.reverse
  | c :: r =>
    if pyIsWS c then subWsPunctAux (c :: pend) r
    else if isPunctC c && !pend.isEmpty then c :: subWsPunctAux [] r
    else pend.reverse ++ c :: subWsPunctAux [] r

/-- Python `re.sub(r'\s+([.,;:!?])', r'\1', text)`: a maximal whitespace run
followed by a punctuation mark loses the whitespace. -/
def subWsPunctL (l : List Char) : List Char :=
  subWsPunctAux [] l


/-- The character class `[A-Za-z一-鿿]` of the punctuation-spacing
fix in `TextBlock._clean_text`. -/
def isLetterOrCJK (c : Char) : Bool :=
  c.isAlpha || isCJKUnified c

/-- Worker for `re.sub(r'([.,;:!?])\s*([A-Za-z一-鿿])', r'\1 \2', text)`:
the state holds an open partial match (the punctuation mark and the
reversed pending whitespace); a letter closes it into `\1 \2`, anything
else flushes the pending text unchanged. -/
def subPunctLetterAux : Option (Char × List Char) → List Char → List Char
  | none, [] => []
  | some st, [] => st.1 :: st.2.reverse
  | none, c :: r =>
    if isPunctC c then subPunctLetterAux (some (c, [])) r
    else c :: subPunctLetterAux none r
  | some st, c :: r =>
    if pyIsWS c then subPunctLetterAux (some (st.1, c :: st.2)) r
    else if isLetterOrCJK c then st.1 :: ' ' :: c :: subPunctLetterAux none r
    else if isPunctC c then st.1 :: st.2.reverse ++ subPunctLetterAux (some (c, [])) r
    else st.1 :: st.2.reverse ++ c :: subPunctLetterAux none r

/-- Python `re.sub(r'([.,;:!?])\s*([A-Za-z一-鿿])', r'\1 \2', text)`. -/
def subPunctLetterL (l : List Char) : List Char :=
  subPunctLetterAux none l


/-- `TextBlock._clean_text`: collapse whitespace, fix the spacing around
punctuation, and strip (the source returns the argument unchanged when it
is empty). -/
def cleanTextS (s : String) : String :=
  if s.data.isEmpty then s
  else pyStripS ⟨subPunctLetterL (subWsPunctL (collapseWSL s.data))⟩

/-- Python substring containment (`needle in hay`). -/
def containsSubL : List Char → List Char → Bool
  | n, [] => n.isEmpty
  | n, c :: t => n.isPrefixOf (c :: t) || containsSubL n t

/-- Python `hay.endswith(suffix)`. -/
def endsWithL (suffix l : List Char) : Bool :=
  suffix.isSuffixOf l

/-- Python `str.lower()` (ASCII). -/
def lowerS (s : String) : String :=
  ⟨s.data.map Char.toLower⟩

/-- Python `str.upper()` (ASCII). -/
def upperS (s : String) : String :=
  ⟨s.data.map Char.toUpper⟩

/-- Python slicing `s[:n]` (by code points). -/
def strTakeS (n : ℕ) (s : String) : String :=
  ⟨s.data.take n⟩

/-- Worker for Python `str.split()`: `cur` is the reversed word being
read. -/
def splitWSAux (cur : List Char) : List Char → List (List Char)
  | [] => if cur.isEmpty then [] else [cur.reverse]
  | c :: r =>
    if pyIsWS c then
      if cur.isEmpty then splitWSAux [] r else cur.reverse :: splitWSAux [] r
    else splitWSAux (c :: cur) r

/-- Python `str.split()` — split on whitespace runs, dropping empty parts. -/
def splitWSL (l : List Char) : List (List Char) :=
  splitWSAux [] l


/-- Python `str.split()` returning strings. -/
def splitWS (s : String) : List String :=
  (splitWSL s.data).map (fun l => (⟨l⟩ : String))

/-- Python `' '.join(parts)`. -/
def joinSpace : List String → String
  | [] => ""
  | [s] => s
  | s :: r => s ++ " " ++ joinSpace r

/-! ### Python numeric primitives -/

/-- Python `round` on a float: round half to even. -/
def pythonRound (q : ℚ) : ℤ :=
  let f := q.floor
  let frac := q - (f : ℚ)
  if frac < 1/2 then f
  else if frac > 1/2 then f + 1
  else if f % 2 = 0 then f else f + 1

/-- Python `int()` on a float: truncation toward zero. -/
def pyInt (q : ℚ) : ℤ :=
  if 0 ≤ q then q.floor else q.ceil

/-- Sum of a list of rationals. -/
def sumQ (l : List ℚ) : ℚ :=
  l.foldl (· + ·) 0

/-- Arithmetic mean (`sum(sizes) / len(sizes)`). -/
def avgQ (l : List ℚ) : ℚ :=
  sumQ l / (l.length : ℚ)

/-! ### Numbering patterns (`PatternLearner.detect_numbering_patterns`)

The source tests fragment heads against a fixed list of regular expressions,
each paired with a tag string.  Each pattern is compiled into a matching
function on character lists; `re.match` anchors at the start of the string.
-/

/-- One of the `test_patterns` regexes of `detect_numbering_patterns`,
plus the two hierarchical patterns appended at the end of the list. -/
inductive NumPat where
  | digitDot       -- `^\d+\.`
  | digitParen     -- `^\d+\)`
  | digitDash      -- `^\d+[-－—]`
  | letterDot      -- `^[A-Za-z]\.`
  | letterParen    -- `^[A-Za-z]\)`
  | romanDot       -- `^[IVXLCDMivxlcdm]+\.`
  | cjkHead        -- `^[第章節条項目部編巻冊]\d*[章節条項目]`
  | circledHead    -- `^[①-⑳㉑㉒㉓]`
  | arabicDot      -- `^[٠-٩]+\.`
  | persianDot     -- `^[۰-۹]+\.`
  | ocrZeroDot     -- `^[Oo0]\d*\.`
  | ocrOneDot      -- `^[Il1]\d*\.`
  | twoLevelDot    -- `^\d+\.\d+\.`
  | threeLevelDot  -- `^\d+\.\d+\.\d+\.`
deriving DecidableEq

/-- ASCII decimal digit (`\d`, ASCII fragment). -/
def isDigitC (c : Char) : Bool :=
  c.isDigit

/-- Matches `\d+` then the continuation `k` (the patterns below never
need backtracking because no continuation starts with a digit). -/
def digitsThen (k : List Char → Bool) : List Char → Bool
  | c :: r => isDigitC c && k (r.dropWhile isDigitC)
  | [] => false

/-- `^\d+\.` -/
def matchDigitDot (l : List Char) : Bool :=
  digitsThen (fun r => match r with | '.' :: _ => true | _ => false) l

/-- `^\d+\)` -/
def matchDigitParen (l : List Char) : Bool :=
  digitsThen (fun r => match r with | ')' :: _ => true | _ => false) l

/-- The dash class `[-－—]` (hyphen, fullwidth hyphen, em dash). -/
def isDashC (c : Char) : Bool :=
  c == '-' || c.toNat == 0xff0d || c.toNat == 0x2014

/-- `^\d+[-－—]` -/
def matchDigitDash (l : List Char) : Bool :=
  digitsThen (fun r => match r with | c :: _ => isDashC c | _ => false) l

/-- `^[A-Za-z]\.` -/
def matchLetterDot : List Char → Bool
  | c :: '.' :: _ => c.isAlpha
  | _ => false

/-- `^[A-Za-z]\)` -/
def matchLetterParen : List Char → Bool
  | c :: ')' :: _ => c.isAlpha
  | _ => false

/-- The roman-numeral class `[IVXLCDMivxlcdm]`. -/
def isRomanC (c : Char) : Bool :=
  (['I', 'V', 'X', 'L', 'C', 'D', 'M', 'i', 'v', 'x', 'l', 'c', 'd', 'm'] : List Char).contains c

/-- `^[IVXLCDMivxlcdm]+\.` -/
def matchRomanDot : List Char → Bool
  | c :: r => isRomanC c && (match r.dropWhile isRomanC with | '.' :: _ => true | _ => false)
  | [] => false

/-- The opening CJK structural class `[第章節条項目部編巻冊]`. -/
def isCjkOpenC (c : Char) : Bool :=
  (['第', '章', '節', '条', '項', '目', '部', '編', '巻', '冊'] : List Char).contains c

/-- The closing CJK structural class `[章節条項目]`. -/
def isCjkCloseC (c : Char) : Bool :=
  (['章', '節', '条', '項', '目'] : List Char).contains c

/-- `^[第章節条項目部編巻冊]\d*[章節条項目]` -/
def matchCjkHead : List Char → Bool
  | c :: r =>
    isCjkOpenC c && (match r.dropWhile isDigitC with | x :: _ => isCjkCloseC x | [] => false)
  | [] => false

/-- The circled-number class `[①②③④⑤⑥⑦⑧⑨⑩⑪⑫⑬⑭⑮⑯⑰⑱⑲⑳㉑㉒㉓]`:
circled digits 1-20 are the contiguous block `U+2460-U+2473`,
21-23 are `U+3251-U+3253`. -/
def isCircledC (c : Char) : Bool :=
  (0x2460 ≤ c.toNat && c.toNat ≤ 0x2473) || (0x3251 ≤ c.toNat && c.toNat ≤ 0x3253)

/-- `^[①-⑳㉑㉒㉓]` -/
def matchCircledHead : List Char → Bool
  | c :: _ => isCircledC c
  | [] => false

/-- Arabic-Indic digits `[٠-٩]` (`U+0660-U+0669`). -/
def isArabicDigitC (c : Char) : Bool :=
  0x660 ≤ c.toNat && c.toNat ≤ 0x669

/-- `^[٠-٩]+\.` -/
def matchArabicDot : List Char → Bool
  | c :: r =>
    isArabicDigitC c &&
      (match r.dropWhile isArabicDigitC with | '.' :: _ => true | _ => false)
  | [] => false

/-- Extended Arabic-Indic (Persian) digits `[۰-۹]` (`U+06F0-U+06F9`). -/
def isPersianDigitC (c : Char) : Bool :=
  0x6f0 ≤ c.toNat && c.toNat ≤ 0x6f9

/-- `^[۰-۹]+\.` -/
def matchPersianDot : List Char → Bool
  | c :: r =>
    isPersianDigitC c &&
      (match r.dropWhile isPersianDigitC with | '.' :: _ => true | _ => false)
  | [] => false

/-- `^[Oo0]\d*\.` -/
def matchOcrZeroDot : List Char → Bool
  | c :: r =>
    (c == 'O' || c == 'o' || c == '0') &&
      (match r.dropWhile isDigitC with | '.' :: _ => true | _ => false)
  | [] => false

/-- `^[Il1]\d*\.` -/
def matchOcrOneDot : List Char → Bool
  | c :: r =>
    (c == 'I' || c == 'l' || c == '1') &&
      (match r.dropWhile isDigitC with | '.' :: _ => true | _ => false)
  | [] => false

/-- `^\d+\.\d+\.` -/
def matchTwoLevelDot (l : List Char) : Bool :=
  digitsThen
    (fun r => match r with
      | '.' :: r2 =>
        digitsThen (fun r3 => match r3 with | '.' :: _ => true | _ => false) r2
      | _ => false) l

/-- `^\d+\.\d+\.\d+\.` -/
def matchThreeLevelDot (l : List Char) : Bool :=
  digitsThen
    (fun r => match r with
      | '.' :: r2 =>
        digitsThen
          (fun r3 => match r3 with
            | '.' :: r4 =>
              digitsThen (fun r5 => match r5 with | '.' :: _ => true | _ => false) r4
            | _ => false) r2
      | _ => false) l

/-- `re.match(pattern, head, re.UNICODE)` for each learned pattern. -/
def NumPat.matchesL : NumPat → List Char → Bool
  | .digitDot => matchDigitDot
  | .digitParen => matchDigitParen
  | .digitDash => matchDigitDash
  | .letterDot => matchLetterDot
  | .letterParen => matchLetterParen
  | .romanDot => matchRomanDot
  | .cjkHead => matchCjkHead
  | .circledHead => matchCircledHead
  | .arabicDot => matchArabicDot
  | .persianDot => matchPersianDot
  | .ocrZeroDot => matchOcrZeroDot
  | .ocrOneDot => matchOcrOneDot
  | .twoLevelDot => matchTwoLevelDot
  | .threeLevelDot => matchThreeLevelDot

/-- The tag paired with each pattern in the source's `test_patterns`
(and in the hierarchical extension). -/
def NumPat.tag : NumPat → String
  | .digitDot => "x."
  | .digitParen => "x)"
  | .digitDash => "x-"
  | .letterDot => "A."
  | .letterParen => "A)"
  | .romanDot => "I."
  | .cjkHead => "x."
  | .circledHead => "x."
  | .arabicDot => "x."
  | .persianDot => "x."
  | .ocrZeroDot => "x."
  | .ocrOneDot => "x."
  | .twoLevelDot => "x.y."
  | .threeLevelDot => "x.y.z."

/-- The `test_patterns` list, in source order. -/
def testPatterns : List NumPat :=
  [.digitDot, .digitParen, .digitDash, .letterDot, .letterParen, .romanDot,
   .cjkHead, .circledHead, .arabicDot, .persianDot, .ocrZeroDot, .ocrOneDot]

/-! ### The fragment model (`TextBlock.__init__`) -/

/-- One raw styled fragment as handed to `TextBlock.__init__` by ingestion:
`(text, font_size, font_name, bbox, page_num, is_italic)`. -/
structure RawBlock where
  text : String
  font_size : ℚ
  font_name : String
  x0 : ℚ
  y0 : ℚ
  x1 : ℚ
  y1 : ℚ
  page_num : ℕ
  is_italic : Bool
deriving DecidableEq

/-- A `TextBlock` after `__init__` (and, later in the pipeline, after the
mutating passes; the mutable attributes are ordinary fields here and the
passes return updated copies). -/
structure TextBlock where
  text : String
  font_size : ℚ
  font_name : String
  x0 : ℚ
  y0 : ℚ
  x1 : ℚ
  y1 : ℚ
  page_num : ℕ
  is_italic : Bool
  is_ocr_text : Bool
  x_position : ℚ
  y_position : ℚ
  is_bold : Bool
  text_case : String
  char_count : ℕ
  numbering_pattern : Option String
  space_above : ℚ
  is_isolated : Bool
  is_centered : Bool
  heading_score : ℚ
deriving DecidableEq

/-- `TextBlock._detect_bold` as run inside `__init__` (for OCR text the
answer is `False` until `_learn_document_patterns` revisits it). -/
def detectBoldInit (isOcr : Bool) (font_name : String) : Bool :=
  if isOcr then false
  else
    (["bold", "black", "heavy", "demi", "semi"] : List String).any
      (fun k => containsSubL k.data (lowerS font_name).data)

/-- Does the text contain a character of the four CJK ranges checked by
`TextBlock._categorize_text_case`? -/
def hasCJKAny (s : String) : Bool :=
  s.data.any (fun c => isCJKUnified c || isHiragana c || isKatakana c || isHangul c)

/-- First character uppercase (`self.text[0].isupper()`). -/
def headIsUpper (s : String) : Bool :=
  match s.data with
  | c :: _ => c.isUpper
  | [] => false

/-- Title-case test for one word of `text.split()`:
`word[0].isupper() if word and unicodedata.category(word[0]).startswith('L')
else True` (letters modelled over ASCII). -/
def wordTitleOK (w : String) : Bool :=
  match w.data with
  | c :: _ => if c.isAlpha then c.isUpper else true
  | [] => true

/-- `TextBlock._categorize_text_case` (letter detection modelled over
ASCII; the CJK branches use the source's explicit code-point ranges).
The source also computes `lower_count`, which it never reads. -/
def categorizeTextCase (isOcr : Bool) (text : String) : String :=
  if text.data.isEmpty then "Lower"
  else if hasCJKAny text then
    if (pyStripS text).data.length ≤ 8 && !(text.data.any isDigitC) then "Title Case"
    else "Lower"
  else
    let letters := text.data.filter Char.isAlpha
    if letters.isEmpty then "Lower"
    else
      let upper := (letters.filter Char.isUpper).length
      let total := letters.length
      if isOcr then
        if (upper : ℚ) / (total : ℚ) ≥ 4/5 then "UPPER"
        else if (upper : ℚ) / (total : ℚ) ≥ 3/10 && headIsUpper text then "Title Case"
        else "Lower"
      else
        if upper == total then "UPPER"
        else if 0 < upper && headIsUpper text then
          if (splitWS text).all wordTitleOK then "Title Case" else "Lower"
        else "Lower"

/-- `TextBlock.__init__`: clean the text, copy the style data, and derive
the initial features.  `numbering_pattern` starts as `None` and is filled
in by `DocumentAnalyzer._learn_document_patterns`. -/
def mkTextBlock (r : RawBlock) : TextBlock :=
  let text := cleanTextS (pyStripS r.text)
  let isOcr := r.font_name == "OCR-Font"
  { text := text
    font_size := r.font_size
    font_name := r.font_name
    x0 := r.x0, y0 := r.y0, x1 := r.x1, y1 := r.y1
    page_num := r.page_num
    is_italic := r.is_italic
    is_ocr_text := isOcr
    x_position := r.x0
    y_position := r.y0
    is_bold := detectBoldInit isOcr r.font_name
    text_case := categorizeTextCase isOcr text
    char_count := text.data.length
    numbering_pattern := none
    space_above := 0
    is_isolated := false
    is_centered := false
    heading_score := 0 }

/-! ### `PatternLearner` -/

/-- The module-level `PatternLearner` object (`_pattern_learner`).  Its
only attribute, the `learned_patterns` dict, is written in `__init__` and
never read nor written again; every method below receives the object and
ignores it, exactly as the source methods ignore `self.learned_patterns`. -/
structure PatternLearner where
  learned_patterns : List (String × String) := []

/-- `^[A-Za-z0-9]+[.\)-]` (the guard of `_clean_ocr_text`). -/
def matchAlnumPunct : List Char → Bool
  | c :: r =>
    (c.isAlpha || c.isDigit) &&
      (match r.dropWhile (fun x => x.isAlpha || x.isDigit) with
       | p :: _ => p == '.' || p == ')' || p == '-'
       | [] => false)
  | [] => false

/-- The `ocr_fixes` dict of `_clean_ocr_text`, in insertion order. -/
def ocrFixes : List (Char × Char) :=
  [('O', '0'), ('l', '1'), ('I', '1'), ('S', '5'), ('G', '6')]

/-- The character set `'0123456789.)-'`. -/
def isDigitPunct (c : Char) : Bool :=
  c.isDigit || c == '.' || c == ')' || c == '-'

/-- `PatternLearner._clean_ocr_text`: collapse/strip whitespace, then, when
the text looks like a numbering pattern, apply the first applicable OCR
letter-for-digit substitution to its first character. -/
def cleanOcrText (t0 : String) : String :=
  let t : String := pyStripS ⟨collapseWSL t0.data⟩
  if matchAlnumPunct t.data then
    match t.data with
    | c :: c2 :: rest =>
      if isDigitPunct c2 then
        match ocrFixes.find? (fun p => p.1 == c) with
        | some p => ⟨p.2 :: c2 :: rest⟩
        | none => t
      else t
    | _ => t
  else t

/-- The numbering-candidate extraction of `detect_numbering_patterns`:
heads (`block.text[:15].strip()`) that are non-empty and shorter than 10
characters, cleaned of OCR artifacts. -/
def numberingCandidates (bs : List TextBlock) : List String :=
  bs.filterMap (fun b =>
    let head := pyStripS (strTakeS 15 b.text)
    if head.data.isEmpty || 10 ≤ head.data.length then none
    else
      let head2 := cleanOcrText head
      if head2.data.isEmpty then none else some head2)

/-- `PatternLearner.detect_numbering_patterns`: keep the test patterns that
match some candidate head; when a `"x."`-tagged pattern was found and some
candidate has more than two dot-separated parts, append the two
hierarchical patterns at the end of the list. -/
def PatternLearner.detect_numbering_patterns (_self : PatternLearner)
    (bs : List TextBlock) : List NumPat :=
  let cands := numberingCandidates bs
  let pats := testPatterns.filter (fun p => cands.any (fun c => p.matchesL c.data))
  if pats.any (fun p => p.tag == "x.") then
    if 0 < (cands.filter (fun c => 2 ≤ c.data.count '.')).length then
      pats ++ [.twoLevelDot, .threeLevelDot]
    else pats
  else pats

/-- `re.sub(r'^[Oo](\d)', r'0\1', text)`. -/
def ocrNumFix1 (l : List Char) : List Char :=
  match l with
  | c :: d :: r => if (c == 'O' || c == 'o') && isDigitC d then '0' :: d :: r else l
  | _ => l

/-- `re.sub(r'^[Il](\d)', r'1\1', text)`. -/
def ocrNumFix2 (l : List Char) : List Char :=
  match l with
  | c :: d :: r => if (c == 'I' || c == 'l') && isDigitC d then '1' :: d :: r else l
  | _ => l

/-- `re.sub(r'^(\d+)[IlL]\.', r'\1.', text)`. -/
def ocrNumFix3 (l : List Char) : List Char :=
  match l with
  | c :: _ =>
    if isDigitC c then
      match l.dropWhile isDigitC with
      | x :: '.' :: r2 =>
        if x == 'I' || x == 'l' || x == 'L' then l.takeWhile isDigitC ++ '.' :: r2
        else l
      | _ => l
    else l
  | [] => l

/-- `re.sub(r'^(\d+)\s*[.。]', r'\1.', text)`. -/
def ocrNumFix4 (l : List Char) : List Char :=
  match l with
  | c :: _ =>
    if isDigitC c then
      match (l.dropWhile isDigitC).dropWhile pyIsWS with
      | x :: r2 =>
        if x == '.' || x.toNat == 0x3002 then l.takeWhile isDigitC ++ '.' :: r2
        else l
      | [] => l
    else l
  | [] => l

/-- `TextBlock._clean_ocr_numbering`: the four anchored substitutions in
sequence. -/
def cleanOcrNumbering (t : String) : String :=
  ⟨ocrNumFix4 (ocrNumFix3 (ocrNumFix2 (ocrNumFix1 t.data)))⟩

/-- `TextBlock.detect_numbering_pattern`: the head (first 25 characters,
stripped, OCR-cleaned for OCR text) is tested against the learned patterns
in order; the first match provides the tag. -/
def TextBlock.detect_numbering_pattern (b : TextBlock) (pats : List NumPat) :
    Option String :=
  let head := pyStripS (strTakeS 25 b.text)
  let head := if b.is_ocr_text then cleanOcrNumbering head else head
  (pats.find? (fun p => p.matchesL head.data)).map NumPat.tag

/-- The weight keywords recognised by `detect_font_indicators`. -/
def boldKeywordSet : List String :=
  ["bold", "black", "heavy", "demi", "semi", "medium", "thick"]

/-- The localized weight keywords of `detect_font_indicators`. -/
def intlBoldKeywordSet : List String :=
  ["gras", "fett", "grassetto", "negrito", "negrita"]

/-- `re.split(r'[-_\s]', font_name)` delimiter class. -/
def isSplitDelim (c : Char) : Bool :=
  c == '-' || c == '_' || pyIsWS c

/-- `re.split(r'[-_\s]', s)`: split at every delimiter character, keeping
empty segments, as `re.split` does. -/
def splitOnDelims (l : List Char) : List (List Char) :=
  l.foldr
    (fun c acc =>
      if isSplitDelim c then [] :: acc
      else
        match acc with
        | h :: t => (c :: h) :: t
        | [] => [[c]])
    [[]]

/-- `PatternLearner.detect_font_indicators`: scan the words of all non-OCR
font names for weight keywords (the source collects them in a `set`;
modelled as a first-occurrence-deduplicated list, the callers only test
membership and emptiness).  Falls back to `{bold, black, heavy}` when
nothing was learned. -/
def PatternLearner.detect_font_indicators (_self : PatternLearner)
    (bs : List TextBlock) : List String :=
  let font_names := (bs.filter (fun b => b.font_name != "OCR-Font")).map
    (fun b => lowerS b.font_name)
  let indicators := font_names.foldl
    (fun acc fn =>
      (splitOnDelims fn.data).foldl
        (fun acc w =>
          let ws : String := ⟨w⟩
          if (boldKeywordSet.contains ws || intlBoldKeywordSet.contains ws)
              && !acc.contains ws then
            acc ++ [ws]
          else acc)
        acc)
    ([] : List String)
  if indicators.isEmpty then ["bold", "black", "heavy"] else indicators

/-! ### Content indicators (`PatternLearner.detect_content_indicators`)

`_create_fuzzy_pattern` builds `exact|fuzzy` where `fuzzy` is the keyword
with OCR-confusable characters replaced by character classes via sequential
`str.replace` calls (order `o, i, l, s, g`).  Because the replacement for
`i` inserts an `l` that the later `l` replacement rewrites again, the
pattern produced for an original `i` is the literal three-token sequence
`[i[il1]1]` = class `{i,[,l,1}` followed by `1` and `]`.  The token lists
below reproduce exactly this behaviour. -/

/-- One token of a compiled fuzzy pattern: a character class or a literal. -/
inductive FuzzyTok where
  | cls (cs : List Char)
  | lit (c : Char)

/-- The token sequence produced for one original keyword character. -/
def fuzzyTokensOf (c : Char) : List FuzzyTok :=
  if c == 'o' then [.cls ['o', '0']]
  else if c == 'i' then [.cls ['i', '[', 'l', '1'], .lit '1', .lit ']']
  else if c == 'l' then [.cls ['i', 'l', '1']]
  else if c == 's' then [.cls ['s', '5']]
  else if c == 'g' then [.cls ['g', '6']]
  else [.lit c]

/-- Token sequence of the whole fuzzy alternative. -/
def fuzzyTokens (w : List Char) : List FuzzyTok :=
  w.flatMap fuzzyTokensOf

/-- Matches a token sequence as a prefix of the text. -/
def toksPrefix : List FuzzyTok → List Char → Bool
  | [], _ => true
  | _ :: _, [] => false
  | .cls cs :: ts, c :: r => cs.contains c && toksPrefix ts r
  | .lit x :: ts, c :: r => c == x && toksPrefix ts r

/-- `re.search` of the fuzzy alternative: match at any position. -/
def fuzzyFound (toks : List FuzzyTok) : List Char → Bool
  | [] => toksPrefix toks []
  | c :: r => toksPrefix toks (c :: r) || fuzzyFound toks r

/-- `re.search(self._create_fuzzy_pattern(keyword), all_text, re.IGNORECASE)`:
keywords of at most 4 characters match exactly (substring search), longer
keywords match exactly or fuzzily.  (`all_text` is already lower-cased, so
`re.IGNORECASE` adds nothing.) -/
def fuzzySearchKeyword (w : String) (text : String) : Bool :=
  if w.data.length ≤ 4 then containsSubL w.data text.data
  else containsSubL w.data text.data || fuzzyFound (fuzzyTokens w.data) text.data

/-- The `academic_keywords` list. -/
def academicKeywords : List String :=
  ["abstract", "introduction", "conclusion", "references", "bibliography",
   "conference", "symposium", "workshop", "proceedings", "paper",
   "research", "study", "analysis", "method", "results"]

/-- The `social_keywords` list. -/
def socialKeywords : List String :=
  ["invitation", "party", "rsvp", "event", "celebration", "wedding"]

/-- ASCII `\w` (the texts analysed here are ASCII). -/
def isWordC (c : Char) : Bool :=
  c.isAlpha || c.isDigit || c == '_'

/-- `re.findall(r'\b(alt1|...|altN)\s*[:：]', text)`: scan left to right
with the previous character tracked for the word boundary; the captured
alternative is collected and the scan resumes after the colon.  (No
alternative of the source's lists is a prefix of another, so at most one
alternative can match at a position.) -/
def colonScanF (alts : List String) : ℕ → Option Char → List Char → List String
  | 0, _, _ => []
  | _, _, [] => []
  | fuel + 1, prev, c :: r =>
    if (match prev with | none => true | some p => !isWordC p) then
      match alts.find? (fun a => a.data.isPrefixOf (c :: r)) with
      | some a =>
        match ((c :: r).drop a.data.length).dropWhile pyIsWS with
        | x :: r3 =>
          if x == ':' || x.toNat == 0xff1a then a :: colonScanF alts fuel (some x) r3
          else colonScanF alts fuel (some c) r
        | [] => colonScanF alts fuel (some c) r
      | none => colonScanF alts fuel (some c) r
    else colonScanF alts fuel (some c) r

/-- The scan with enough fuel: every step of `colonScanF` consumes at
least one character, so `length + 1` units of fuel always finish the
list. -/
def colonScan (alts : List String) (prev : Option Char) (l : List Char) :
    List String :=
  colonScanF alts (l.length + 1) prev l


/-- The English form-field alternatives. -/
def formAlts1 : List String := ["name", "email", "phone", "address", "date", "time"]

/-- The French form-field alternatives. -/
def formAlts2 : List String := ["nom", "courriel", "téléphone", "adresse", "date", "heure"]

/-- The Spanish form-field alternatives. -/
def formAlts3 : List String := ["nombre", "correo", "teléfono", "dirección", "fecha", "hora"]

/-- The Chinese form-field alternatives. -/
def formAlts4 : List String := ["姓名", "邮箱", "电话", "地址", "日期", "时间"]

/-- First-occurrence deduplication (the observable content of a Python
`set` of strings: its cardinality and membership). -/
def dedupKeepFirst (l : List String) : List String :=
  l.foldl (fun acc x => if acc.contains x then acc else acc ++ [x]) []

/-- The document-type indicator lists produced by
`detect_content_indicators`. -/
structure Indicators where
  academic : List String
  form : List String
  social : List String
deriving DecidableEq

/-- `PatternLearner.detect_content_indicators`: fuzzy keyword search for
academic and social terms, colon-pattern captures for form fields, each
collected through `list(set(...))` (modelled as first-occurrence
deduplication: the callers only read lengths and membership). -/
def PatternLearner.detect_content_indicators (_self : PatternLearner)
    (bs : List TextBlock) : Indicators :=
  let all_text : String := ⟨collapseWSL (joinSpace (bs.map (fun b => lowerS b.text))).data⟩
  let academic := academicKeywords.filter (fun k => fuzzySearchKeyword k all_text)
  let form := dedupKeepFirst
    (colonScan formAlts1 none all_text.data ++ colonScan formAlts2 none all_text.data
      ++ colonScan formAlts3 none all_text.data ++ colonScan formAlts4 none all_text.data)
  let social := socialKeywords.filter (fun k => fuzzySearchKeyword k all_text)
  { academic := academic, form := form, social := social }

/-! ### `DocumentAnalyzer._learn_document_patterns` -/

/-- The per-block update of `_learn_document_patterns`: store the detected
numbering pattern and re-derive boldness (size-relative for OCR text,
learned-keyword based otherwise; each untouched branch keeps the
`__init__` value). -/
def updateBlock (pats : List NumPat) (boldKeys : List String)
    (nonOcrSizes allSizes : List ℚ) (b : TextBlock) : TextBlock :=
  let np := b.detect_numbering_pattern pats
  let newBold :=
    if b.is_ocr_text then
      if !nonOcrSizes.isEmpty then decide (avgQ nonOcrSizes * (6/5) < b.font_size)
      else if !allSizes.isEmpty then decide (avgQ allSizes * (23/20) < b.font_size)
      else b.is_bold
    else
      if !boldKeys.isEmpty then
        boldKeys.any (fun k => containsSubL k.data (lowerS b.font_name).data)
      else b.is_bold
  { b with numbering_pattern := np, is_bold := newBold }

/-- `_learn_document_patterns` without the indicator learning (the learned
indicators are consumed by `_pass3` and threaded separately): learn the
numbering patterns and bold keywords, then update every block. -/
def learnUpdateAll (learner : PatternLearner) (bs : List TextBlock) : List TextBlock :=
  let pats := learner.detect_numbering_patterns bs
  let boldKeys := learner.detect_font_indicators bs
  let nonOcrSizes := (bs.filter (fun b => !b.is_ocr_text)).map (fun b => b.font_size)
  let allSizes := bs.map (fun b => b.font_size)
  bs.map (updateBlock pats boldKeys nonOcrSizes allSizes)

/-! ### `DocumentAnalyzer._pass1` -/

/-- The body of the `_pass1` loop for one block, given its predecessor in
ingestion order (`None` for the first block): vertical gap to the previous
block on the same page, and centeredness relative to the page width. -/
def pass1Upd (pw : ℚ) (prev : Option TextBlock) (b : TextBlock) : TextBlock :=
  let sp :=
    match prev with
    | some p => if b.page_num == p.page_num then b.y_position - p.y1 else b.space_above
    | none => b.space_above
  { b with
      space_above := sp
      is_centered := decide (|pw / 2 - (b.x0 + b.x1) / 2| < pw * (1/5)) }

/-- `DocumentAnalyzer._pass1`. -/
def pass1 (pw : ℚ) (bs : List TextBlock) : List TextBlock :=
  List.zipWith (pass1Upd pw) (none :: bs.map some) bs

/-! ### `DocumentAnalyzer._pass2`

`Counter(sizes)` iterates its keys in first-occurrence order;
`most_common(1)` returns the first key with maximal multiplicity
(`heapq.nlargest(1)` = `max`, which keeps the earliest maximum).
`Counter([]).most_common(1)[0]` raises `IndexError`.
-/

/-- The keys of `Counter(xs)` in iteration (first-occurrence) order. -/
def counterKeys (xs : List ℚ) : List ℚ :=
  xs.foldl (fun acc x => if acc.contains x then acc else acc ++ [x]) []

/-- `Counter(xs).most_common(1)[0][0]`, or `none` when `xs` is empty
(where the source raises `IndexError`): the first key attaining the
maximal count. -/
def mostCommon1 (xs : List ℚ) : Option ℚ :=
  match counterKeys xs with
  | [] => none
  | k :: ks =>
    some (ks.foldl (fun best k2 => if xs.count best < xs.count k2 then k2 else best) k)

/-- The `body` selection of `_pass2`: blocks with more than 10 characters
and font size at least 8, or all blocks when none qualify. -/
def bodyOf (bs : List TextBlock) : List TextBlock :=
  let f := bs.filter (fun b => decide (10 < b.char_count) && decide ((8:ℚ) ≤ b.font_size))
  if f.isEmpty then bs else f

/-- The heading-score computation of `_pass2` for one block. -/
def scoreBlock (baseline : ℚ) (tiers : List ℚ) (b : TextBlock) : ℚ :=
  let ratio := b.font_size / baseline
  let s : ℚ :=
    if tiers.contains b.font_size then 25 - 3 * ((tiers.indexOf b.font_size : ℕ) : ℚ)
    else if 2 ≤ ratio then 20
    else if (3:ℚ)/2 ≤ ratio then 15
    else if (6:ℚ)/5 ≤ ratio then 10
    else if (11:ℚ)/10 ≤ ratio then 5
    else 0
  let s := s +
    (if b.is_bold then
      if b.is_ocr_text then
        if (3:ℚ)/2 ≤ ratio then 15 else if (13:ℚ)/10 ≤ ratio then 12 else 8
      else
        if (13:ℚ)/10 ≤ ratio then 12 else 8
    else 0)
  let s := s + (if b.numbering_pattern.isSome then 18 else 0)
  let s := s +
    (if b.text_case == "UPPER" then 6
     else if b.text_case == "Title Case" then 4 else 0)
  let s := s + (if baseline * (3/2) < b.space_above then 10 else 0)
  let s := s + (if b.is_centered ∧ (6:ℚ)/5 ≤ ratio then 8 else 0)
  let has_cjk := b.text.data.any (fun c => isCJKUnified c || isHiragana c || isKatakana c)
  let cc := b.char_count
  let s := s +
    (if has_cjk then
      if cc < 2 then -12
      else if 2 ≤ cc ∧ cc ≤ 8 then 3
      else if 9 ≤ cc ∧ cc ≤ 25 then 1
      else if 35 < cc then -3 else 0
    else if b.is_ocr_text then
      if cc < 3 then -10
      else if 3 ≤ cc ∧ cc ≤ 60 then 2
      else if 120 < cc then -5 else 0
    else
      if cc < 4 then -8
      else if 4 ≤ cc ∧ cc ≤ 50 then 2
      else if 100 < cc then -5 else 0)
  let s := s + (if b.font_size < baseline * (19/20) then -8 else 0)
  if b.is_ocr_text then ((pyInt (s * (19/20)) : ℤ) : ℚ) else s

/-- `DocumentAnalyzer._pass2`: baseline font size (mode of the body
sizes), heading size tiers, and the scored blocks.  Returns `none` exactly
when the source raises `IndexError` (zero blocks). -/
def pass2 (bs : List TextBlock) : Option (ℚ × List ℚ × List TextBlock) :=
  let body := bodyOf bs
  let sizes := body.map (fun b => b.font_size)
  match mostCommon1 sizes with
  | none => none
  | some baseline =>
    let sorted_sizes := List.insertionSort (fun a b : ℚ => b ≤ a) (counterKeys sizes)
    let size_tiers := sorted_sizes.filter (fun size =>
      decide (baseline * (23/20) ≤ size) &&
      (decide (2 ≤ sizes.count size) || decide (baseline * (3/2) ≤ size)) &&
      !(body.filter (fun b => b.font_size == size && decide (0 < b.page_num))).isEmpty)
    let tiers :=
      match size_tiers with
      | t0 :: t1 :: _ =>
        if t1 * (13/10) < t0 then (size_tiers.drop 1).take 4 else size_tiers.take 4
      | _ => size_tiers.take 4
    some (baseline, tiers,
      bs.map (fun b => { b with heading_score := scoreBlock baseline tiers b }))

/-! ### `DocumentAnalyzer._pass3` -/

/-- One entry of the returned outline: `{'level': ..., 'text': ..., 'page': ...}`. -/
structure OutlineEntry where
  level : String
  text : String
  page : ℕ
deriving DecidableEq

/-- `len(set(b.page_num for b in blocks))`. -/
def pageSet (bs : List TextBlock) : List ℕ :=
  bs.foldl (fun acc b => if acc.contains b.page_num then acc else acc ++ [b.page_num]) []

/-- Number of distinct pages. -/
def totalPages (bs : List TextBlock) : ℕ :=
  (pageSet bs).length

/-- The class of the meaningful-content search
`[A-Za-z一-鿿぀-ゟ゠-ヿ가-힯Ѐ-ӿ؀-ۿ]`. -/
def isMeaningfulC (c : Char) : Bool :=
  c.isAlpha || isCJKUnified c || isHiragana c || isKatakana c || isHangul c ||
    isCyrillic c || isArabicBlock c

/-- `re.search` of the meaningful-content class. -/
def hasMeaningful (s : String) : Bool :=
  s.data.any isMeaningfulC

/-- `re.match(r'Version \d+\.\d+', text, re.I)`. -/
def versionMatch (s : String) : Bool :=
  ((strTakeS 8 s).data.map Char.toLower == ("version ").data) &&
    (match s.data.drop 8 with
     | c :: r =>
       isDigitC c &&
         (match r.dropWhile isDigitC with
          | '.' :: d :: _ => isDigitC d
          | _ => false)
     | [] => false)

/-- Hiragana or katakana content (the Japanese short-fragment filter). -/
def hasJpKana (s : String) : Bool :=
  s.data.any (fun c => isHiragana c || isKatakana c)

/-- The candidate filter of `_pass3` (the sequence of `continue`s; the
score/meaningful test is textually duplicated in the poster and non-poster
branches of the source with identical bodies). -/
def candOK (is_poster : Bool) (baseline : ℚ) (b : TextBlock) : Bool :=
  if b.heading_score < 20 ∨ hasMeaningful b.text = false then false
  else if versionMatch b.text then false
  else if hasJpKana b.text ∧ (pyStripS b.text).data.length ≤ 3 ∧
      b.numbering_pattern = none ∧ b.font_size < baseline * (7/5) then false
  else if is_poster then
    if b.font_size < baseline * (13/10) ∧ b.heading_score < 30 then false
    else if b.char_count < 8 ∧ ¬(baseline * (3/2) < b.font_size) ∧ 1 < b.char_count then false
    else true
  else
    if b.numbering_pattern = none ∧ b.font_size < baseline * (21/20) then false
    else if b.char_count ≤ 4 ∧ b.numbering_pattern = none ∧ b.heading_score < 35 then false
    else true

/-- The key order of `sorted(first_page_blocks, key=lambda b:
(-b.font_size, b.y_position))`. -/
def negSizeYLE (a b : TextBlock) : Prop :=
  b.font_size < a.font_size ∨ (a.font_size = b.font_size ∧ a.y_position ≤ b.y_position)

instance : DecidableRel negSizeYLE := fun a b => by
  unfold negSizeYLE; infer_instance

/-- Stable sort by `(-font_size, y_position)`. -/
def sortNegSizeY (bs : List TextBlock) : List TextBlock :=
  List.insertionSort negSizeYLE bs

/-- Key order `a.y_position ≤ b.y_position` (`key=lambda b: b.y_position`). -/
def yPosLE (a b : TextBlock) : Prop :=
  a.y_position ≤ b.y_position

instance : DecidableRel yPosLE := fun a b => by
  unfold yPosLE; infer_instance

/-- Key order `a.x_position ≤ b.x_position` (`key=lambda x: x.x_position`). -/
def xPosLE (a b : TextBlock) : Prop :=
  a.x_position ≤ b.x_position

instance : DecidableRel xPosLE := fun a b => by
  unfold xPosLE; infer_instance

/-- Inserts a title candidate into the first y-group whose key is within
`max(0.15 * font_size, 3)`, reporting whether a group was found. -/
def insertYGroup (cand : TextBlock) :
    List (ℚ × List TextBlock) → List (ℚ × List TextBlock) × Bool
  | [] => ([], false)
  | (y, g) :: rest =>
    if |cand.y_position - y| ≤ max (cand.font_size * (3/20)) 3 then
      ((y, g ++ [cand]) :: rest, true)
    else
      let r := insertYGroup cand rest
      ((y, g) :: r.1, r.2)

/-- The `y_groups` accumulation loop of the multi-page title resolver
(`dict` keys iterate in insertion order). -/
def addToYGroups (groups : List (ℚ × List TextBlock)) (cand : TextBlock) :
    List (ℚ × List TextBlock) :=
  let r := insertYGroup cand groups
  if r.2 then r.1 else r.1 ++ [(cand.y_position, [cand])]

/-- The horizontal merging loop over one x-sorted y-group: state is
`(merged_text, last_end_x)`, started at `("", -1000)`.  In the overlap
branch a duplicate fragment is skipped without advancing `last_end_x`. -/
def mergeGroupLine (g : List TextBlock) : String :=
  (g.foldl
    (fun (acc : String × ℚ) blk =>
      let t := pyStripS blk.text
      if blk.x_position < acc.2 + blk.font_size * (1/5) then
        if containsSubL t.data acc.1.data || endsWithL (strTakeS 3 t).data acc.1.data then acc
        else (acc.1 ++ t, blk.x1)
      else if ¬(acc.1 = "") ∧ endsWithL [' '] acc.1.data = false then
        (acc.1 ++ " " ++ t, blk.x1)
      else (acc.1 ++ t, blk.x1))
    ("", -1000)).1

/-- Word-boundary classes of the fused-word fix
`re.sub(r'([a-z一-鿿؀-ۿЀ-ӿ])([A-Z一-鿿؀-ۿЀ-ӿ])', r'\1 \2', title)`. -/
def isTitleG1 (c : Char) : Bool :=
  c.isLower || isCJKUnified c || isArabicBlock c || isCyrillic c

/-- Second group of the fused-word fix. -/
def isTitleG2 (c : Char) : Bool :=
  c.isUpper || isCJKUnified c || isArabicBlock c || isCyrillic c

/-- The fused-word substitution: insert a space between adjacent
lowercase-class and uppercase-class characters, consuming both (as
`re.sub` does with non-overlapping matches). -/
def subLowerUpperL : List Char → List Char
  | [] => []
  | [c] => [c]
  | c1 :: c2 :: r =>
    if isTitleG1 c1 && isTitleG2 c2 then c1 :: ' ' :: c2 :: subLowerUpperL r
    else c1 :: subLowerUpperL (c2 :: r)

/-- The duplicate-word cleanup of the multi-page title: drop a word equal
to its predecessor, or contained (case-insensitively) in a predecessor
when both are longer than 3 characters. -/
def dedupTitleWords (ws : List String) : List String :=
  (List.zip ws (none :: ws.map some)).filterMap
    (fun wp =>
      match wp.2 with
      | none => some wp.1
      | some p =>
        if wp.1 = p ∨ (3 < wp.1.data.length ∧ 3 < p.data.length ∧
            containsSubL (lowerS wp.1).data (lowerS p).data) then none
        else some wp.1)

/-- One step of the title-line accumulation: sort a y-band by x, merge it
into one line, and append the non-empty result. -/
def tmStep (acc : List String × List TextBlock) (yg : ℚ × List TextBlock) :
    List String × List TextBlock :=
  let g := List.insertionSort xPosLE yg.2
  let merged := mergeGroupLine g
  if ¬(pyStripS merged = "") then (acc.1 ++ [pyStripS merged], acc.2 ++ g)
  else acc

/-- The multi-page title resolver (source lines of the `total_pages > 1`
branch): gather large page-0 fragments, band them by y, merge each band
left to right, join the bands, then post-process the joined string. -/
def titleMulti (sorted_fp : List TextBlock) (max_fs : ℚ) :
    String × List TextBlock :=
  let title_candidates := sorted_fp.filter
    (fun b => decide (max_fs * (17/20) ≤ b.font_size))
  let y_groups := title_candidates.foldl addToYGroups []
  let sortedGroups := List.insertionSort
    (fun a b : ℚ × List TextBlock => a.1 ≤ b.1) y_groups
  let folded := sortedGroups.foldl tmStep ([], [])
  if ¬(folded.1 = []) then
    let t1 : String := ⟨collapseWSL (joinSpace folded.1).data⟩
    let t2 : String := ⟨subLowerUpperL t1.data⟩
    (joinSpace (dedupTitleWords (splitWS t2)), folded.2)
  else ("", folded.2)

/-- The single-page title selection: among the top three candidates with
at least 80% of the page's maximum size, the first that is centered or
within 90% of the maximum and longer than 3 characters (the final `else`
branch of the source is unreachable, since `total_pages` is 1 whenever
page-0 blocks exist and `total_pages > 1` fails). -/
def titleSingle (tp : ℕ) (sorted_fp : List TextBlock) (max_fs : ℚ) :
    List TextBlock :=
  if tp == 1 then
    let tcands := sorted_fp.filter (fun b => decide (max_fs * (4/5) ≤ b.font_size))
    match (tcands.take 3).find?
        (fun b => (b.is_centered || decide (max_fs * (9/10) ≤ b.font_size)) &&
          decide (3 < (pyStripS b.text).data.length)) with
    | some b => [b]
    | none => []
  else
    sorted_fp.filter (fun b => decide (max_fs * (9/10) ≤ b.font_size) && b.is_centered)

/-- The title-resolution section of `_pass3` (source lines 511-600),
producing the pair `(title, title_blocks)`.  The source's early
`return title, []` for an empty `sorted_fp` is modelled by `none`
(unreachable, since `first_page_blocks` is non-empty there). -/
def titleStep (bs : List TextBlock) (tp : ℕ) : Option (String × List TextBlock) :=
  let fp := bs.filter (fun b => b.page_num == 0)
  if fp.isEmpty then some ("", [])
  else
    match sortNegSizeY fp with
    | [] => none
    | f0 :: rest =>
      let max_fs := f0.font_size
      if 1 < tp then some (titleMulti (f0 :: rest) max_fs)
      else
        let tb := List.insertionSort yPosLE (titleSingle tp (f0 :: rest) max_fs)
        match tb with
        | [] => some ("", [])
        | [b] => some (pyStripS b.text, [b])
        | b1 :: b2 :: r =>
          some (pyStripS (joinSpace ((b1 :: b2 :: r).map (fun b => pyStripS b.text))),
            b1 :: b2 :: r)

/-- `re.search(r'www\.|\.com|@|\d{5}|\(\d{3}\)', text)`: five consecutive
digits anywhere. -/
def hasFiveDigits : List Char → Bool
  | [] => false
  | c :: t => ((c :: t).take 5).length == 5 && ((c :: t).take 5).all isDigitC || hasFiveDigits t

/-- `\(\d{3}\)` anywhere. -/
def hasParen3 : List Char → Bool
  | '(' :: d1 :: d2 :: d3 :: ')' :: rest =>
    (isDigitC d1 && isDigitC d2 && isDigitC d3) || hasParen3 (d1 :: d2 :: d3 :: ')' :: rest)
  | _ :: t => hasParen3 t
  | [] => false

/-- The junk filter of the poster branch
(`re.search(r'www\.|\.com|@|\d{5}|\(\d{3}\)', b.text.lower())`). -/
def posterJunk (lowText : String) : Bool :=
  containsSubL ("www.").data lowText.data || containsSubL (".com").data lowText.data ||
    lowText.data.contains '@' || hasFiveDigits lowText.data || hasParen3 lowText.data

/-- The poster-candidate filter (field labels, junk, long small text). -/
def posterCands (candidates : List TextBlock) (form : List String) (baseline : ℚ) :
    List TextBlock :=
  candidates.filter (fun b =>
    !(form.any (fun lab => (upperS lab ++ ":") == upperS (pyStripS b.text))) &&
    !(posterJunk (lowerS b.text)) &&
    !(decide (50 < b.char_count) && decide (b.font_size < baseline)))

/-- Key order `(y_position, x_position)` of the poster candidates. -/
def yxLE (a b : TextBlock) : Prop :=
  a.y_position < b.y_position ∨ (a.y_position = b.y_position ∧ a.x_position ≤ b.x_position)

instance : DecidableRel yxLE := fun a b => by
  unfold yxLE; infer_instance

/-- Key order on indexed blocks (`key=lambda x: x.x_position`). -/
def pairXLE (a b : ℕ × TextBlock) : Prop :=
  a.2.x_position ≤ b.2.x_position

instance : DecidableRel pairXLE := fun a b => by
  unfold pairXLE; infer_instance

/-- Minimum of a non-empty list of rationals (`x_gap` starts at `inf` and
is lowered by `min`; an empty phrase list would keep it at `inf`). -/
def minQList : List ℚ → Option ℚ
  | [] => none
  | x :: r => some (r.foldl min x)

/-- The running `x_gap` of the phrase-grouping inner loop. -/
def minGap (ph : List (ℕ × TextBlock)) (o : TextBlock) : Option ℚ :=
  minQList (ph.map (fun p => min |o.x_position - p.2.x1| |p.2.x_position - o.x1|))

/-- The inner phrase-grouping step: add an unused block on (nearly) the
same line as the seed when its horizontal gap to the phrase is small. -/
def pgInner (cand : ℕ × TextBlock) (st : List (ℕ × TextBlock) × List ℕ)
    (other : ℕ × TextBlock) : List (ℕ × TextBlock) × List ℕ :=
  if st.2.contains other.1 then st
  else if |other.2.y_position - cand.2.y_position| ≤
      max (cand.2.font_size * (1/10)) 2 then
    match minGap st.1 other.2 with
    | some g =>
      if g < max (cand.2.font_size * 2) 20 then
        (st.1 ++ [other], st.2 ++ [other.1])
      else st
    | none => st
  else st

/-- The outer phrase-grouping step: start a phrase at an unused candidate,
grow it with the inner loop, and keep it when it has at least two
fragments. -/
def pgOuter (sc : List (ℕ × TextBlock))
    (acc : List (List (ℕ × TextBlock)) × List ℕ) (cand : ℕ × TextBlock) :
    List (List (ℕ × TextBlock)) × List ℕ :=
  if acc.2.contains cand.1 then acc
  else
    let inner := sc.foldl (pgInner cand) ([cand], acc.2 ++ [cand.1])
    if 1 < inner.1.length then
      (acc.1 ++ [List.insertionSort pairXLE inner.1], inner.2)
    else (acc.1, inner.2)

/-- The phrase-grouping loops of the poster branch.  Python's
`used_blocks` is an (object-identity) `set`; blocks are therefore indexed
by their position in `sorted_candidates`, which identifies the distinct
`TextBlock` objects. -/
def phraseGroups (sc : List (ℕ × TextBlock)) : List (List (ℕ × TextBlock)) :=
  (sc.foldl (pgOuter sc) ([], [])).1

/-- Maximal font size within a phrase group. -/
def groupMaxFS (g : List (ℕ × TextBlock)) : ℚ :=
  match g with
  | [] => 0
  | x :: r => r.foldl (fun m p => max m p.2.font_size) x.2.font_size

/-- Total word count of a phrase group (`sum(len(b.text.split()))`). -/
def groupWords (g : List (ℕ × TextBlock)) : ℕ :=
  (g.map (fun p => (splitWS p.2.text).length)).sum

/-- Strictly-greater comparison for the poster `max(...)` key
`(max font size, total word count)`. -/
def groupKeyLT (a b : List (ℕ × TextBlock)) : Prop :=
  groupMaxFS a < groupMaxFS b ∨ (groupMaxFS a = groupMaxFS b ∧ groupWords a < groupWords b)

instance : DecidableRel groupKeyLT := fun a b => by
  unfold groupKeyLT; infer_instance

/-- Python `max(groups, key=...)`: the first maximum. -/
def maxByGroupKey : List (List (ℕ × TextBlock)) → Option (List (ℕ × TextBlock))
  | [] => none
  | g :: r => some (r.foldl (fun best g2 => if groupKeyLT best g2 then g2 else best) g)

/-- `re.match(r'^[\d\s\-\(\)\.]+$', s)`. -/
def allJunk (s : String) : Bool :=
  !s.data.isEmpty && s.data.all
    (fun c => isDigitC c || pyIsWS c || c == '-' || c == '(' || c == ')' || c == '.')

/-- The poster assembly branch (source lines 622-681): group the surviving
candidates into same-line phrases, merge the best group into a single H1
entry, always with an empty title. -/
def posterPath (candidates : List TextBlock) (form : List String) (baseline : ℚ) :
    String × List OutlineEntry :=
  let pcands := posterCands candidates form baseline
  if pcands.isEmpty then ("", [])
  else
    let sc := (List.insertionSort yxLE pcands).enum
    match maxByGroupKey (phraseGroups sc) with
    | some best =>
      let combined := pyStripS (joinSpace (best.map (fun p => pyStripS p.2.text)))
      if 5 < combined.data.length ∧ allJunk combined = false then
        ("", [⟨"H1", combined ++ " ", 0⟩])
      else ("", [])
    | none => ("", [])

/-- Python `max(blocks, key=lambda b: b.font_size)`: first maximum. -/
def maxByFontSize : List TextBlock → Option TextBlock
  | [] => none
  | b :: r => some (r.foldl (fun best x => if best.font_size < x.font_size then x else best) b)

/-- Strict comparison for `min(heading_candidates, key=lambda b:
(b.y_position, -b.font_size))`. -/
def keyYNegSizeLT (a b : TextBlock) : Prop :=
  a.y_position < b.y_position ∨ (a.y_position = b.y_position ∧ b.font_size < a.font_size)

instance : DecidableRel keyYNegSizeLT := fun a b => by
  unfold keyYNegSizeLT; infer_instance

/-- Python `min(...)`: the first minimum. -/
def minByYNegSize : List TextBlock → Option TextBlock
  | [] => none
  | b :: r => some (r.foldl (fun best x => if keyYNegSizeLT x best then x else best) b)

/-- The `level_map` dict.  Keys mix the tier sizes (floats) and rounded
sizes (ints), which Python's numeric equality identifies; both live in `ℚ`
here.  Only `get` is ever applied to it, so it is modelled as an
association list where the latest assignment is found first. -/
abbrev LevelMap := List ((ℚ × Bool) × String)

/-- `level_map.get(key)`. -/
def lmGet (m : LevelMap) (k : ℚ × Bool) : Option String :=
  (m.find? (fun e => e.1 == k)).map (fun e => e.2)

/-- The tier seeding of `level_map` (`H{i+1}` for `(tier, True)` and
`(tier, False)`). -/
def lmapInit (tiers : List ℚ) : LevelMap :=
  tiers.enum.foldl
    (fun m it =>
      ((it.2, false), "H" ++ toString (it.1 + 1)) ::
        ((it.2, true), "H" ++ toString (it.1 + 1)) :: m)
    []

/-- `clusters[size_key].append(b)` on a `defaultdict(list)` (keys keep
first-insertion order, values keep append order). -/
def clAppend (cl : List ((ℚ × Bool) × List TextBlock)) (k : ℚ × Bool)
    (b : TextBlock) : List ((ℚ × Bool) × List TextBlock) :=
  if cl.any (fun e => e.1 == k) then
    cl.map (fun e => if e.1 == k then (e.1, e.2 ++ [b]) else e)
  else cl ++ [(k, [b])]

/-- One step of the clustering loop of the general branch. -/
def blsStep (tiers : List ℚ)
    (st : LevelMap × List ((ℚ × Bool) × List TextBlock)) (b : TextBlock) :
    LevelMap × List ((ℚ × Bool) × List TextBlock) :=
  if b.numbering_pattern.isSome then st
  else
    let size_key : ℚ × Bool := (((pythonRound b.font_size : ℤ) : ℚ), b.is_bold)
    match tiers.find? (fun t => |b.font_size - t| < 1/2) with
    | some t =>
      ((size_key, (lmGet st.1 (t, b.is_bold)).getD ("H" ++ toString (tiers.length + 1)))
          :: st.1,
        st.2)
    | none => (st.1, clAppend st.2 size_key b)

/-- The clustering loop of the general branch (source lines 714-726):
non-numbered candidates either inherit a tier level through a near-tier
match or are collected into `(rounded size, bold)` clusters. -/
def buildLevelState (tiers : List ℚ) (candidates : List TextBlock) :
    LevelMap × List ((ℚ × Bool) × List TextBlock) :=
  candidates.foldl (blsStep tiers) (lmapInit tiers, [])

/-- Key order of `sorted(clusters.items(), key=lambda x: -x[0][0])`. -/
def clusterLE (a b : (ℚ × Bool) × List TextBlock) : Prop :=
  b.1.1 ≤ a.1.1

instance : DecidableRel clusterLE := fun a b => by
  unfold clusterLE; infer_instance

/-- The level assignment for the remaining clusters (source lines
729-734), counting from `len(tiers) + 1` and capping at `H6`. -/
def assignRemaining (tiers : List ℚ) (lm : LevelMap)
    (remaining : List ((ℚ × Bool) × List TextBlock)) : LevelMap :=
  (remaining.foldl
    (fun (st : LevelMap × ℕ) kc =>
      if (lmGet st.1 kc.1).isNone then
        ((kc.1, "H" ++ toString (min st.2 6)) :: st.1, st.2 + 1)
      else st)
    (lm, tiers.length + 1)).1

/-- The per-entry level of the general outline loop: numbering depth first,
then a near-tier match, then the `level_map` with default `H4`. -/
def levelGeneral (tiers : List ℚ) (lm : LevelMap) (b : TextBlock) : String :=
  if b.numbering_pattern == some ("x.") then "H1"
  else if b.numbering_pattern == some ("x.y.") then "H2"
  else if b.numbering_pattern == some ("x.y.z.") then "H3"
  else
    match tiers.enum.find? (fun it => |b.font_size - it.2| < 1/2) with
    | some it => "H" ++ toString (it.1 + 1)
    | none => (lmGet lm (((pythonRound b.font_size : ℤ) : ℚ), b.is_bold)).getD ("H4")

/-- One outline entry of the general branch: stripped text with a single
appended space. -/
def mkEntryGeneral (tiers : List ℚ) (lm : LevelMap) (b : TextBlock) : OutlineEntry :=
  let t := pyStripS b.text
  let t := if endsWithL [' '] t.data then t else t ++ " "
  ⟨levelGeneral tiers lm b, t, b.page_num⟩

/-- The entry filter of the general outline loop (title texts, page 0,
lowercase short noise). -/
def outlineBlocks (candidates : List TextBlock) (title_texts : List String) :
    List TextBlock :=
  candidates.filter (fun b =>
    !(title_texts.contains b.text) && !(b.page_num == 0) &&
    !(b.numbering_pattern.isNone && b.text_case == "Lower" &&
      decide ((pyStripS b.text).data.length < 10)))

/-- The generator of the final sort key:
`next((b.y_position for b in self.text_blocks if b.text == x['text']), 0)`. -/
def lookupY (bs : List TextBlock) (t : String) : ℚ :=
  ((bs.find? (fun b => b.text == t)).map (fun b => b.y_position)).getD 0

/-- The sort key order `(page, looked-up y)` of `outline.sort`. -/
def entryLE (bs : List TextBlock) (e1 e2 : OutlineEntry) : Prop :=
  e1.page < e2.page ∨ (e1.page = e2.page ∧ lookupY bs e1.text ≤ lookupY bs e2.text)

instance (bs : List TextBlock) : DecidableRel (entryLE bs) := fun a b => by
  unfold entryLE; infer_instance

/-- The single-page archetype test of `_pass3`
(`has_academic_indicators or has_social_indicators or has_form_indicators`). -/
def posterIndicators (inds : Indicators) : Bool :=
  !inds.academic.isEmpty || !inds.social.isEmpty || decide (2 ≤ inds.form.length)

/-- The single-page branch of `_pass3` (source lines 607-703): either the
poster path, or the fallback-title / single-best-heading path.  (The
source recomputes `all_text` at the top of this branch and never uses
it.) -/
def pass3Single (baseline : ℚ) (inds : Indicators) (bs candidates : List TextBlock)
    (title : String) (title_texts : List String) : String × List OutlineEntry :=
  let has_numbered := bs.any (fun b => b.numbering_pattern.isSome)
  if posterIndicators inds && !has_numbered then posterPath candidates inds.form baseline
  else
    let tlt :=
      if title = "" then
        match maxByFontSize (bs.filter (fun b => b.page_num == 0)) with
        | some largest => (pyStripS largest.text, title_texts ++ [largest.text])
        | none => (title, title_texts)
      else (title, title_texts)
    let hcands := candidates.filter (fun b =>
      !(tlt.2.contains b.text) &&
      ((b.text_case == "UPPER" && decide (5 < (pyStripS b.text).data.length)) ||
        decide (baseline * (6/5) ≤ b.font_size)))
    match minByYNegSize hcands with
    | some best => (tlt.1, [⟨"H1", pyStripS best.text, 0⟩])
    | none => (tlt.1, [])

/-- The general (multi-page) branch of `_pass3` (source lines 705-771):
tier/cluster level assignment, the outline loop, and the final sort. -/
def pass3General (baseline : ℚ) (tiers : List ℚ) (bs candidates : List TextBlock)
    (title : String) (title_texts : List String) : String × List OutlineEntry :=
  let st := buildLevelState tiers candidates
  let remaining := List.insertionSort clusterLE st.2
  let lm2 := assignRemaining tiers st.1 remaining
  (title,
    List.insertionSort (entryLE bs)
      ((outlineBlocks candidates title_texts).map (mkEntryGeneral tiers lm2)))

/-- `DocumentAnalyzer._pass3`. -/
def pass3 (baseline : ℚ) (tiers : List ℚ) (inds : Indicators)
    (bs : List TextBlock) : String × List OutlineEntry :=
  let total_pages := totalPages bs
  let is_poster := total_pages == 1
  let candidates := bs.filter (candOK is_poster baseline)
  match titleStep bs total_pages with
  | none => ("", [])
  | some tt =>
    if total_pages == 1 then
      pass3Single baseline inds bs candidates tt.1 (tt.2.map (fun b => b.text))
    else
      pass3General baseline tiers bs candidates tt.1 (tt.2.map (fun b => b.text))

/-! ### `DocumentAnalyzer.analyze_document` -/

/-- `analyze_document` for a fresh `DocumentAnalyzer` holding the given
raw blocks and page width, with the module-level pattern learner passed
explicitly: learn the document patterns, run passes 1-3, and return the
`(title, outline)` pair.  `none` models the `IndexError` that `_pass2`
raises on an empty block list. -/
def analyzeDocument (learner : PatternLearner) (raw : List RawBlock)
    (page_width : ℚ) : Option (String × List OutlineEntry) :=
  let bs0 := raw.map mkTextBlock
  let inds := learner.detect_content_indicators bs0
  let bs2 := pass1 page_width (learnUpdateAll learner bs0)
  match pass2 bs2 with
  | none => none
  | some r => some (pass3 r.1 r.2.1 inds r.2.2)

/-- The fully enriched block list (`self.text_blocks` after
`_learn_document_patterns`, `_pass1` and `_pass2`), i.e. the state the
blocks are in while `_pass3` runs; `[]` when the pipeline crashes. -/
def enrichBlocks (learner : PatternLearner) (raw : List RawBlock)
    (page_width : ℚ) : List TextBlock :=
  match pass2 (pass1 page_width (learnUpdateAll learner (raw.map mkTextBlock))) with
  | none => []
  | some r => r.2.2

/-! ### Concrete documents used by the verification -/

/-- A fresh pattern learner (the state `_pattern_learner` has right after
module import). -/
def freshLearner : PatternLearner := ⟨[]⟩

/-- A two-page report: a large page-0 title, body text, a page-1 heading
in the first size tier, and a page-1 fragment whose text starts with the
single-level number `12.` but whose head is too long to enter the
numbering-candidate list (so no numbering pattern is learned). -/
def ex2raw : List RawBlock :=
  [⟨"A Research Document About Things", 20, "Helvetica", 50, 100, 350, 110, 0, false⟩,
   ⟨"This is the body text of the document.", 10, "Helvetica", 50, 500, 300, 510, 0, false⟩,
   ⟨"Another line of plain body text here.", 10, "Helvetica", 50, 520, 300, 530, 0, false⟩,
   ⟨"Introduction And Background Wow", 20, "Helvetica", 50, 100, 350, 110, 1, false⟩,
   ⟨"12. Research Overview", 16, "Helvetica", 50, 150, 250, 160, 1, false⟩,
   ⟨"also more plain body text here", 10, "Helvetica", 50, 400, 300, 410, 1, false⟩]

/-- A two-page document whose text contains the form field labels
`name:` and `date:`, plus a page-1 heading. -/
def ex3raw : List RawBlock :=
  [⟨"Employee Details Record", 20, "Helvetica", 50, 100, 350, 110, 0, false⟩,
   ⟨"name: alice anderson expected", 10, "Helvetica", 50, 500, 300, 510, 0, false⟩,
   ⟨"Personal Information Summary", 16, "Helvetica", 50, 100, 300, 110, 1, false⟩,
   ⟨"date: january twelve maybe", 10, "Helvetica", 50, 200, 300, 210, 1, false⟩]

/-- A single-page document with the form field labels `name:` and
`date:` and a large title fragment. -/
def ex3sraw : List RawBlock :=
  [⟨"Application Form Title", 20, "Helvetica", 50, 100, 350, 110, 0, false⟩,
   ⟨"name: alice anderson expected", 10, "Helvetica", 50, 500, 300, 510, 0, false⟩,
   ⟨"date: january twelve maybe", 10, "Helvetica", 50, 520, 300, 530, 0, false⟩]

/-- A single-page non-poster document with two centered fragments at the
page's maximum font size. -/
def ex8raw : List RawBlock :=
  [⟨"Hello", 20, "Helvetica", 150, 100, 250, 110, 0, false⟩,
   ⟨"World", 20, "Helvetica", 150, 130, 250, 140, 0, false⟩,
   ⟨"just some plain body writing", 10, "Helvetica", 50, 300, 350, 310, 0, false⟩]

/-- A document with a single fragment starting with the two-level number
`2.1.` (its head is short enough to become a numbering candidate, so both
the single-level and the hierarchical patterns are learned). -/
def ex5raw : List RawBlock :=
  [⟨"2.1. Goal", 12, "Helvetica", 0, 0, 100, 10, 0, false⟩]

/-- A document whose qualifying fragments realize font sizes `12` and `10`
with equal multiplicity, size `12` occurring first. -/
def ex6raw : List RawBlock :=
  [⟨"twelve point text block one", 12, "Helvetica", 50, 100, 300, 110, 0, false⟩,
   ⟨"ten point text block here ok", 10, "Helvetica", 50, 130, 300, 140, 0, false⟩,
   ⟨"twelve point text block two", 12, "Helvetica", 50, 160, 300, 170, 0, false⟩,
   ⟨"ten point text block two here", 10, "Helvetica", 50, 190, 300, 200, 0, false⟩]

/-- The enriched blocks of `ex6raw` as they enter `_pass2`. -/
def exC6bs : List TextBlock :=
  pass1 400 (learnUpdateAll freshLearner (ex6raw.map mkTextBlock))

/-- The font sizes of the `_pass2` body selection of `ex6raw`. -/
def exC6sizes : List ℚ :=
  (bodyOf exC6bs).map (fun b => b.font_size)

/-- The Python `max(first_page_blocks, key=lambda b: b.font_size)` value
(0 when page 0 is empty), used to state the single-page title rule. -/
def pageZeroMax (bs : List TextBlock) : ℚ :=
  match maxByFontSize (bs.filter (fun b => b.page_num == 0)) with
  | some b => b.font_size
  | none => 0

/-- Claim C1 (code bug): on a document with zero fragments the claim (and
the specification) promise the output `("", [])`, but
`DocumentAnalyzer._pass2` evaluates `Counter([]).most_common(1)[0]`, which
raises `IndexError`; `analyze_document` therefore crashes instead of
returning.  The crash is the `none` of the embedding, and it is `_pass2`
(here `pass2`) that fails. -/
theorem C1_empty_document_crashes :
    analyzeDocument freshLearner [] 612 = none ∧ pass2 [] = none := by
  exact ⟨rfl, rfl⟩

/-- Claim C2 counterexample: in the two-page document `ex2raw` the
fragment `"12. Research Overview"` begins with the single-level number
prefix `12.` (it matches `^\d+\.` and not `^\d+\.\d+\.`), appears in the
returned outline, and is emitted with level `H2` (its font size matches
the second heading tier), not `H1`: no block of the document has a head
short enough to become a numbering candidate, so no numbering pattern is
learned and the claimed numbering precedence never fires. -/
theorem C2_counterexample :
    analyzeDocument freshLearner ex2raw 400 =
      some ("A Research Document About Things",
        [⟨"H1", "Introduction And Background Wow ", 1⟩,
         ⟨"H2", "12. Research Overview ", 1⟩]) ∧
    matchDigitDot ("12. Research Overview").data = true ∧
    matchTwoLevelDot ("12. Research Overview").data = false ∧
    ("H2" : String) ≠ "H1" := by
  refine ⟨by decide, by decide, by decide, by decide⟩

/-- Claim C3 counterexample: `ex3raw` contains the form field labels
`name:` and `date:` (two distinct captured indicators), but it has two
pages, and the form rule of `_pass3` is only consulted inside the
`total_pages == 1` branch — the returned outline has length 1, not 0. -/
theorem C3_counterexample :
    2 ≤ ((freshLearner.detect_content_indicators (ex3raw.map mkTextBlock)).form).length ∧
    analyzeDocument freshLearner ex3raw 400 =
      some ("Employee Details Record",
        [⟨"H1", "Personal Information Summary ", 1⟩]) ∧
    (1 : ℕ) ≠ 0 := by
  refine ⟨by decide, by decide, by decide⟩

/-- Claim C5 counterexample: for the fragment `"2.1. Goal"` the learned
pattern list contains the two-level pattern, and the fragment head
matches it, yet the detected tag is the single-level `"x."`: the list is
tested in source order, which puts `^\d+\.` first and appends the
hierarchical patterns last — most-specific-first is exactly what the code
does not do. -/
theorem C5_counterexample :
    matchTwoLevelDot ("2.1. Goal").data = true ∧
    NumPat.twoLevelDot ∈
      freshLearner.detect_numbering_patterns (ex5raw.map mkTextBlock) ∧
    (enrichBlocks freshLearner ex5raw 400).map (fun b => b.numbering_pattern) =
      [some ("x.")] := by
  refine ⟨by decide, by decide, by decide⟩

/-- Claim C6 counterexample: in `ex6raw` the qualifying font sizes are
`[12, 10, 12, 10]` — sizes `12` and `10` are equally frequent — and the
computed `body_font_size` is `12`, the first-encountered size, not the
smaller `10` the claim promises. -/
theorem C6_counterexample :
    exC6sizes = [12, 10, 12, 10] ∧
    exC6sizes.count 10 = exC6sizes.count 12 ∧
    (10 : ℚ) < 12 ∧
    (pass2 exC6bs).map (fun r => r.1) = some 12 := by
  refine ⟨by decide, by decide, by decide, by decide⟩

/-- Claim C8 counterexample: in the single-page non-poster document
`ex8raw` both `"Hello"` and `"World"` are centered and at the page's
maximum font size, yet the returned title is `"Hello"` alone, not the
vertical join `"Hello World"` — the single-page title selection appends
at most one fragment (it breaks after the first hit). -/
theorem C8_counterexample :
    analyzeDocument freshLearner ex8raw 400 =
      some ("Hello", [⟨"H1", "World", 0⟩]) ∧
    ((enrichBlocks freshLearner ex8raw 400).filter (fun b =>
        decide (pageZeroMax (enrichBlocks freshLearner ex8raw 400) * (9/10) ≤ b.font_size)
          && b.is_centered)).map (fun b => b.text) = ["Hello", "World"] ∧
    ("Hello" : String) ≠ "Hello World" := by
  refine ⟨by decide, by decide, by decide⟩

/-- Claim C7 (confirmed): `analyze_document` ignores the state of the
module-level `_pattern_learner` — all three methods called on it read only
their arguments, never `self.learned_patterns` — so two runs over
identical fragment sets, whatever learner states they see, produce
identical output, and nothing can carry over between calls. -/
theorem C7_learner_state_independent (l1 l2 : PatternLearner)
    (raw : List RawBlock) (pw : ℚ) :
    analyzeDocument l1 raw pw = analyzeDocument l2 raw pw := rfl

/-! ### Helper lemmas: stripped text never ends in a space -/

/-- The head surviving `dropWhile p` falsifies `p`. -/
theorem dropWhile_head_false {p : Char → Bool} {l : List Char} {c : Char}
    {r : List Char} (h : l.dropWhile p = c :: r) : p c = false := by
  have h2 := List.head?_dropWhile_not p l
  rw [h] at h2
  simpa using h2

/-- A stripped character list never ends in a space. -/
theorem pyStripL_no_trail (l : List Char) :
    endsWithL [' '] (pyStripL l) = false := by
  unfold pyStripL dropTrailWS endsWithL
  unfold List.isSuffixOf
  rw [List.reverse_reverse]
  cases hy : (l.dropWhile pyIsWS).reverse.dropWhile pyIsWS with
  | nil => rfl
  | cons c r =>
    have hc : pyIsWS c = false := dropWhile_head_false hy
    have hcs : (' ' == c) = false := by
      unfold pyIsWS at hc
      cases hcc : c == ' '
      · simp only [BEq.comm (a := ' ')]
        exact hcc
      · rw [hcc] at hc
        simp at hc
    simp [List.isPrefixOf, hcs]

/-- Cleaned block text never ends in a space. -/
theorem cleanTextS_no_trail (s : String) :
    endsWithL [' '] (cleanTextS s).data = false := by
  unfold cleanTextS
  by_cases h : s.data.isEmpty
  · rw [if_pos h]
    rcases s with ⟨d⟩
    cases d with
    | nil => rfl
    | cons c r => simp at h
  · rw [if_neg h]
    exact pyStripL_no_trail _

/-- Appending `" "` produces a string that does end in a space. -/
theorem append_space_ends (s : String) :
    endsWithL [' '] (s ++ " ").data = true := by
  unfold endsWithL List.isSuffixOf
  have hd : (s ++ " ").data = s.data ++ [' '] := rfl
  rw [hd, List.reverse_append]
  simp [List.isPrefixOf]

/-- A string that does not end in a space differs from any
space-terminated string. -/
theorem ne_of_no_trail {t s : String} (h : endsWithL [' '] t.data = false) :
    t ≠ s ++ " " := by
  intro he
  rw [he, append_space_ends s] at h
  cases h

/-! ### Helper lemmas: the enrichment passes preserve text, page and y -/

/-- `map` over a `zipWith` whose step preserves a projection of its second
argument. -/
theorem map_zipWith_snd {α β γ : Type} (g : β → γ) (f : α → β → β)
    (hf : ∀ a b, g (f a b) = g b) :
    ∀ (l1 : List α) (l2 : List β), l2.length ≤ l1.length →
      (List.zipWith f l1 l2).map g = l2.map g := by
  intro l1 l2
  induction l2 generalizing l1 with
  | nil => simp
  | cons b bs ih =>
    cases l1 with
    | nil => intro h; simp at h
    | cons a l1 =>
      intro h
      simp only [List.zipWith_cons_cons, List.map_cons, hf]
      rw [ih l1 (by simpa using h)]

/-- Extraction form of a successful `pass2`. -/
theorem pass2_eq_some {bs : List TextBlock} {r : ℚ × List ℚ × List TextBlock}
    (h : pass2 bs = some r) :
    ∃ bl ti, mostCommon1 ((bodyOf bs).map (fun b => b.font_size)) = some bl ∧
      r.1 = bl ∧ r.2.1 = ti ∧
      r.2.2 = bs.map (fun b => { b with heading_score := scoreBlock bl ti b }) := by
  simp only [pass2] at h
  split at h
  · cases h
  · rename_i bl hm
    exact ⟨bl, _, hm, by injection h with h2; rw [← h2], by injection h with h2; rw [← h2],
      by injection h with h2; rw [← h2]⟩

/-- Membership in the accumulating fold behind `counterKeys`. -/
theorem counterKeys_mem_aux (xs : List ℚ) :
    ∀ (acc : List ℚ) (a : ℚ),
      (a ∈ xs.foldl (fun acc x => if acc.contains x then acc else acc ++ [x]) acc) ↔
        a ∈ acc ∨ a ∈ xs := by
  induction xs with
  | nil => intro acc a; simp
  | cons x t ih =>
    intro acc a
    simp only [List.foldl_cons]
    rw [ih]
    by_cases hc : acc.contains x
    · rw [if_pos hc]
      constructor
      · rintro (h | h)
        · exact Or.inl h
        · exact Or.inr (List.mem_cons_of_mem _ h)
      · rintro (h | h)
        · exact Or.inl h
        · rcases List.mem_cons.mp h with h2 | h2
          · subst h2
            exact Or.inl (List.mem_of_elem_eq_true hc)
          · exact Or.inr h2
    · rw [if_neg hc]
      constructor
      · rintro (h | h)
        · rcases List.mem_append.mp h with h2 | h2
          · exact Or.inl h2
          · rcases List.mem_singleton.mp h2 with rfl
            exact Or.inr (List.mem_cons_self _ _)
        · exact Or.inr (List.mem_cons_of_mem _ h)
      · rintro (h | h)
        · exact Or.inl (List.mem_append.mpr (Or.inl h))
        · rcases List.mem_cons.mp h with h2 | h2
          · subst h2
            exact Or.inl (List.mem_append.mpr (Or.inr (List.mem_singleton.mpr rfl)))
          · exact Or.inr h2

/-- The Counter keys are exactly the elements. -/
theorem counterKeys_mem {xs : List ℚ} {a : ℚ} : a ∈ counterKeys xs ↔ a ∈ xs := by
  unfold counterKeys
  rw [counterKeys_mem_aux]
  simp

/-- `pass2` fails only on an empty block list. -/
theorem pass2_none {bs : List TextBlock} (h : pass2 bs = none) : bs = [] := by
  simp only [pass2] at h
  split at h
  · rename_i hm
    unfold mostCommon1 at hm
    split at hm
    · rename_i hk
      have hs : ((bodyOf bs).map (fun b => b.font_size)) = [] := by
        cases hss : (bodyOf bs).map (fun b => b.font_size) with
        | nil => rfl
        | cons y t =>
          have hy : y ∈ counterKeys ((bodyOf bs).map (fun b => b.font_size)) :=
            counterKeys_mem.mpr (by rw [hss]; exact List.mem_cons_self _ _)
          rw [hk] at hy
          cases hy
      rw [List.map_eq_nil] at hs
      unfold bodyOf at hs
      by_cases hb : (bs.filter (fun b =>
          decide (10 < b.char_count) && decide ((8:ℚ) ≤ b.font_size))).isEmpty
      · rwa [if_pos hb] at hs
      · rw [if_neg hb] at hs
        rw [hs] at hb
        simp at hb
    · cases hm
  · cases h

/-- `_pass1` does not change the text of any block. -/
theorem pass1_map_text (pw : ℚ) (bs : List TextBlock) :
    (pass1 pw bs).map (fun b => b.text) = bs.map (fun b => b.text) := by
  unfold pass1
  refine map_zipWith_snd (fun b => b.text) (pass1Upd pw) ?_ _ _ ?_
  · exact fun a b => rfl
  · simp only [List.length_cons, List.length_map]
    omega

/-- `_pass1` does not change page or y of any block. -/
theorem pass1_map_pagey (pw : ℚ) (bs : List TextBlock) :
    (pass1 pw bs).map (fun b => (b.page_num, b.y_position)) =
      bs.map (fun b => (b.page_num, b.y_position)) := by
  unfold pass1
  refine map_zipWith_snd (fun b => (b.page_num, b.y_position)) (pass1Upd pw) ?_ _ _ ?_
  · exact fun a b => rfl
  · simp only [List.length_cons, List.length_map]
    omega

/-- The texts of the enriched blocks are the cleaned raw texts. -/
theorem enrich_texts {l : PatternLearner} {raw : List RawBlock} {pw : ℚ}
    {r : ℚ × List ℚ × List TextBlock}
    (h : pass2 (pass1 pw (learnUpdateAll l (raw.map mkTextBlock))) = some r) :
    r.2.2.map (fun b => b.text) = raw.map (fun rb => cleanTextS (pyStripS rb.text)) := by
  obtain ⟨bl, ti, _, _, _, h3⟩ := pass2_eq_some h
  rw [h3, List.map_map]
  have h4 : ((fun b => b.text) ∘ fun b =>
      { b with heading_score := scoreBlock bl ti b } : TextBlock → String) =
      (fun b => b.text) := rfl
  rw [h4, pass1_map_text]
  unfold learnUpdateAll
  simp only [List.map_map]
  rfl

/-- The `(page, y)` projections of the enriched blocks are those of the
raw fragments. -/
theorem enrich_pagey {l : PatternLearner} {raw : List RawBlock} {pw : ℚ}
    {r : ℚ × List ℚ × List TextBlock}
    (h : pass2 (pass1 pw (learnUpdateAll l (raw.map mkTextBlock))) = some r) :
    r.2.2.map (fun b => (b.page_num, b.y_position)) =
      raw.map (fun rb => (rb.page_num, rb.y0)) := by
  obtain ⟨bl, ti, _, _, _, h3⟩ := pass2_eq_some h
  rw [h3, List.map_map]
  have h4 : ((fun b => (b.page_num, b.y_position)) ∘ fun b =>
      { b with heading_score := scoreBlock bl ti b } : TextBlock → ℕ × ℚ) =
      (fun b => (b.page_num, b.y_position)) := rfl
  rw [h4, pass1_map_pagey]
  unfold learnUpdateAll
  simp only [List.map_map]
  rfl

/-! ### Helper lemmas: the shape of the `_pass3` branches -/

/-- The poster branch always returns an empty title and at most one
outline entry. -/
theorem posterPath_shape (c : List TextBlock) (f : List String) (b : ℚ) :
    ∃ o, posterPath c f b = ("", o) ∧ o.length ≤ 1 := by
  simp only [posterPath]
  split
  · exact ⟨[], rfl, by simp⟩
  · split
    · split
      · exact ⟨_, rfl, by simp⟩
      · exact ⟨[], rfl, by simp⟩
    · exact ⟨[], rfl, by simp⟩

/-- The single-page branch emits at most one outline entry. -/
theorem pass3Single_shape (baseline : ℚ) (inds : Indicators)
    (bs candidates : List TextBlock) (title : String) (title_texts : List String) :
    (pass3Single baseline inds bs candidates title title_texts).2.length ≤ 1 := by
  simp only [pass3Single]
  split
  · obtain ⟨o, ho, hlen⟩ := posterPath_shape candidates inds.form baseline
    rw [ho]
    exact hlen
  · split
    · simp
    · simp

/-- With a poster indicator present and no numbered content, the
single-page branch is exactly the poster path. -/
theorem pass3Single_poster (baseline : ℚ) (inds : Indicators)
    (bs candidates : List TextBlock) (title : String) (title_texts : List String)
    (h2 : posterIndicators inds = true)
    (h3 : bs.any (fun b => b.numbering_pattern.isSome) = false) :
    pass3Single baseline inds bs candidates title title_texts =
      posterPath candidates inds.form baseline := by
  simp only [pass3Single, h2, h3]
  simp

/-- On a single-page document `_pass3` either early-returns or runs the
single-page branch on the filtered candidates. -/
theorem pass3_single_split (baseline : ℚ) (tiers : List ℚ) (inds : Indicators)
    (bs : List TextBlock) (h1 : totalPages bs = 1) :
    pass3 baseline tiers inds bs = ("", []) ∨
      ∃ tt, titleStep bs (totalPages bs) = some tt ∧
        pass3 baseline tiers inds bs =
          pass3Single baseline inds bs (bs.filter (candOK true baseline)) tt.1
            (tt.2.map (fun b => b.text)) := by
  have hb1 : (totalPages bs == 1) = true := by simp [h1]
  simp only [pass3, hb1]
  cases ht : titleStep bs (totalPages bs) with
  | none => exact Or.inl rfl
  | some tt => exact Or.inr ⟨tt, rfl, by simp⟩

/-- On a multi-page document `_pass3` either early-returns or runs the
general branch. -/
theorem pass3_general_split (baseline : ℚ) (tiers : List ℚ) (inds : Indicators)
    (bs : List TextBlock) (h1 : totalPages bs ≠ 1) :
    pass3 baseline tiers inds bs = ("", []) ∨
      ∃ tt, titleStep bs (totalPages bs) = some tt ∧
        pass3 baseline tiers inds bs =
          pass3General baseline tiers bs (bs.filter (candOK false baseline)) tt.1
            (tt.2.map (fun b => b.text)) := by
  have hb1 : (totalPages bs == 1) = false := by simpa using h1
  simp only [pass3, hb1]
  cases ht : titleStep bs (totalPages bs) with
  | none => exact Or.inl rfl
  | some tt => exact Or.inr ⟨tt, rfl, by simp⟩

/-- Every entry of the general outline is produced by `mkEntryGeneral`
from a surviving non-page-0 candidate block. -/
theorem pass3General_mem (baseline : ℚ) (tiers : List ℚ)
    (bs candidates : List TextBlock) (title : String) (title_texts : List String)
    (e : OutlineEntry)
    (he : e ∈ (pass3General baseline tiers bs candidates title title_texts).2) :
    ∃ b, b ∈ candidates ∧ b.page_num ≠ 0 ∧
      ∃ lm, e = mkEntryGeneral tiers lm b := by
  simp only [pass3General] at he
  have he2 := (List.perm_insertionSort _ _).mem_iff.mp he
  rw [List.mem_map] at he2
  obtain ⟨b, hbmem, hbe⟩ := he2
  unfold outlineBlocks at hbmem
  rw [List.mem_filter] at hbmem
  obtain ⟨hbc, hprops⟩ := hbmem
  refine ⟨b, hbc, ?_, _, hbe.symm⟩
  intro h0
  rw [Bool.and_assoc] at hprops
  have h2 := (Bool.and_eq_true _ _).mp hprops
  have h3 := (Bool.and_eq_true _ _).mp h2.2
  rw [h0] at h3
  simp at h3

/-- Stripped strings never end in a space (string form). -/
theorem pyStripS_no_trail (s : String) :
    endsWithL [' '] (pyStripS s).data = false :=
  pyStripL_no_trail s.data

/-- The general outline entry text is the stripped block text plus one
appended space. -/
theorem mkEntryGeneral_text (tiers : List ℚ) (lm : LevelMap) (b : TextBlock) :
    (mkEntryGeneral tiers lm b).text = pyStripS b.text ++ " " := by
  simp only [mkEntryGeneral, pyStripS_no_trail]
  simp

/-- The page of a general outline entry. -/
theorem mkEntryGeneral_page (tiers : List ℚ) (lm : LevelMap) (b : TextBlock) :
    (mkEntryGeneral tiers lm b).page = b.page_num := rfl

/-- A block tagged `"x."` is always emitted at level `H1`. -/
theorem mkEntryGeneral_level_x1 (tiers : List ℚ) (lm : LevelMap)
    (b : TextBlock) (h : b.numbering_pattern = some ("x.")) :
    (mkEntryGeneral tiers lm b).level = "H1" := by
  have : (mkEntryGeneral tiers lm b).level = levelGeneral tiers lm b := rfl
  rw [this]
  unfold levelGeneral
  rw [h]
  simp

/-- Every poster-path outline entry carries a trailing space. -/
theorem posterPath_text (c : List TextBlock) (f : List String) (b : ℚ)
    (e : OutlineEntry) (he : e ∈ (posterPath c f b).2) :
    ∃ s, e.text = s ++ " " := by
  simp only [posterPath] at he
  split at he
  · simp at he
  · split at he
    · split at he
      · rw [List.mem_singleton] at he
        exact ⟨_, by rw [he]⟩
      · simp at he
    · simp at he

/-- Claim C3 amended: the form-indicator rule fires only on single-page
documents.  For a single-page fragment set with at least two distinct
captured form-field indicators and no numbering pattern on any fragment,
`analyze_document` takes the poster path: the returned title is the empty
string (not a resolved title) and the outline has at most one (merged)
entry. -/
theorem C3_single_page_form_poster (l : PatternLearner) (raw : List RawBlock)
    (pw : ℚ) (t : String) (o : List OutlineEntry)
    (hres : analyzeDocument l raw pw = some (t, o))
    (h1 : totalPages (enrichBlocks l raw pw) = 1)
    (hform : 2 ≤ ((l.detect_content_indicators (raw.map mkTextBlock)).form).length)
    (hnum : (enrichBlocks l raw pw).any (fun b => b.numbering_pattern.isSome) = false) :
    t = "" ∧ o.length ≤ 1 := by
  simp only [analyzeDocument] at hres
  cases hp : pass2 (pass1 pw (learnUpdateAll l (raw.map mkTextBlock))) with
  | none => rw [hp] at hres; cases hres
  | some r =>
    rw [hp] at hres
    simp only [Option.some.injEq] at hres
    have henr : enrichBlocks l raw pw = r.2.2 := by
      simp only [enrichBlocks, hp]
    rw [henr] at h1 hnum
    have hpi : posterIndicators (l.detect_content_indicators (raw.map mkTextBlock)) = true := by
      have hd : decide (2 ≤ ((l.detect_content_indicators (raw.map mkTextBlock)).form).length)
          = true := decide_eq_true hform
      simp [posterIndicators, hd]
    rcases pass3_single_split r.1 r.2.1 (l.detect_content_indicators (raw.map mkTextBlock))
        r.2.2 h1 with hcase | ⟨tt, _, hcase⟩
    · rw [hcase] at hres
      injection hres with ha hb
      exact ⟨ha.symm, by rw [← hb]; simp⟩
    · rw [hcase, pass3Single_poster _ _ _ _ _ _ hpi hnum] at hres
      obtain ⟨o2, ho2, hlen⟩ := posterPath_shape
        (r.2.2.filter (candOK true r.1)) (l.detect_content_indicators (raw.map mkTextBlock)).form r.1
      rw [ho2] at hres
      injection hres with ha hb
      exact ⟨ha.symm, by rw [← hb]; exact hlen⟩

/-- Witness for C3 (amended): the single-page form document `ex3sraw`
satisfies every hypothesis and indeed yields an empty title and an empty
outline. -/
theorem C3_single_page_form_poster_witness :
    (analyzeDocument freshLearner ex3sraw 400 = some ("", []) ∧
     totalPages (enrichBlocks freshLearner ex3sraw 400) = 1 ∧
     2 ≤ ((freshLearner.detect_content_indicators (ex3sraw.map mkTextBlock)).form).length ∧
     (enrichBlocks freshLearner ex3sraw 400).any
       (fun b => b.numbering_pattern.isSome) = false) ∧
    ("" : String) = "" ∧ ([] : List OutlineEntry).length ≤ 1 :=
  ⟨⟨by decide, by decide, by decide, by decide⟩,
    C3_single_page_form_poster freshLearner ex3sraw 400 "" [] (by decide) (by decide)
      (by decide) (by decide)⟩

/-- Claim C2 amended: in the general (multi-page) archetype, every outline
entry comes from an enriched fragment whose stripped text plus one space
is the entry text, and whenever that fragment's *learned*
`numbering_pattern` is the single-level tag `"x."`, the entry level is
`H1` regardless of font size.  (The text prefix alone does not force H1 —
see the counterexample — the learned tag does.) -/
theorem C2_numbering_tag_forces_H1 (l : PatternLearner) (raw : List RawBlock)
    (pw : ℚ) (t : String) (o : List OutlineEntry)
    (hres : analyzeDocument l raw pw = some (t, o))
    (hmp : totalPages (enrichBlocks l raw pw) ≠ 1) :
    ∀ e ∈ o, ∃ b, b ∈ enrichBlocks l raw pw ∧
      e.text = pyStripS b.text ++ " " ∧ e.page = b.page_num ∧
      (b.numbering_pattern = some ("x.") → e.level = "H1") := by
  simp only [analyzeDocument] at hres
  cases hp : pass2 (pass1 pw (learnUpdateAll l (raw.map mkTextBlock))) with
  | none => rw [hp] at hres; cases hres
  | some r =>
    rw [hp] at hres
    simp only [Option.some.injEq] at hres
    have henr : enrichBlocks l raw pw = r.2.2 := by
      simp only [enrichBlocks, hp]
    rw [henr] at hmp ⊢
    intro e he
    rcases pass3_general_split r.1 r.2.1 (l.detect_content_indicators (raw.map mkTextBlock))
        r.2.2 hmp with hcase | ⟨tt, _, hcase⟩
    · rw [hcase] at hres
      injection hres with _ hb
      rw [← hb] at he
      cases he
    · rw [hcase] at hres
      injection hres with _ hb
      rw [← hb] at he
      obtain ⟨b, hbc, _, lm, hbe⟩ := pass3General_mem r.1 r.2.1 r.2.2
        (r.2.2.filter (candOK false r.1)) tt.1 (tt.2.map (fun (b : TextBlock) => b.text)) e he
      refine ⟨b, List.mem_of_mem_filter hbc, ?_, ?_, ?_⟩
      · rw [hbe, mkEntryGeneral_text]
      · rw [hbe, mkEntryGeneral_page]
      · intro hx
        rw [hbe, mkEntryGeneral_level_x1 _ _ _ hx]

/-- Witness for C2 (amended) at the two-page document `ex2raw`. -/
theorem C2_numbering_tag_forces_H1_witness :
    (analyzeDocument freshLearner ex2raw 400 =
      some ("A Research Document About Things",
        [⟨"H1", "Introduction And Background Wow ", 1⟩,
         ⟨"H2", "12. Research Overview ", 1⟩]) ∧
     totalPages (enrichBlocks freshLearner ex2raw 400) ≠ 1) ∧
    ∀ e ∈ [(⟨"H1", "Introduction And Background Wow ", 1⟩ : OutlineEntry),
           ⟨"H2", "12. Research Overview ", 1⟩],
      ∃ b, b ∈ enrichBlocks freshLearner ex2raw 400 ∧
        e.text = pyStripS b.text ++ " " ∧ e.page = b.page_num ∧
        (b.numbering_pattern = some ("x.") → e.level = "H1") :=
  ⟨⟨by decide, by decide⟩,
    C2_numbering_tag_forces_H1 freshLearner ex2raw 400
      ("A Research Document About Things")
      [⟨"H1", "Introduction And Background Wow ", 1⟩,
       ⟨"H2", "12. Research Overview ", 1⟩] (by decide) (by decide)⟩

/-- Claim C9: outline text is never verbatim fragment text.  In the
general (multi-page) archetype every entry's text is a fragment's
stripped text with exactly one appended space, and on the poster path the
single merged entry likewise ends in an appended space. -/
theorem C9_trailing_space (l : PatternLearner) (raw : List RawBlock) (pw : ℚ)
    (t : String) (o : List OutlineEntry)
    (hres : analyzeDocument l raw pw = some (t, o)) :
    (totalPages (enrichBlocks l raw pw) ≠ 1 →
      ∀ e ∈ o, ∃ b, b ∈ enrichBlocks l raw pw ∧ e.text = pyStripS b.text ++ " ") ∧
    (totalPages (enrichBlocks l raw pw) = 1 →
      posterIndicators (l.detect_content_indicators (raw.map mkTextBlock)) = true →
      (enrichBlocks l raw pw).any (fun b => b.numbering_pattern.isSome) = false →
      ∀ e ∈ o, ∃ s, e.text = s ++ " ") := by
  simp only [analyzeDocument] at hres
  cases hp : pass2 (pass1 pw (learnUpdateAll l (raw.map mkTextBlock))) with
  | none => rw [hp] at hres; cases hres
  | some r =>
    rw [hp] at hres
    simp only [Option.some.injEq] at hres
    have henr : enrichBlocks l raw pw = r.2.2 := by
      simp only [enrichBlocks, hp]
    rw [henr]
    constructor
    · intro hmp e he
      rcases pass3_general_split r.1 r.2.1
          (l.detect_content_indicators (raw.map mkTextBlock)) r.2.2 hmp with
        hcase | ⟨tt, _, hcase⟩
      · rw [hcase] at hres
        injection hres with _ hb
        rw [← hb] at he
        cases he
      · rw [hcase] at hres
        injection hres with _ hb
        rw [← hb] at he
        obtain ⟨b, hbc, _, lm, hbe⟩ := pass3General_mem r.1 r.2.1 r.2.2
          (r.2.2.filter (candOK false r.1)) tt.1 (tt.2.map (fun (b : TextBlock) => b.text)) e he
        exact ⟨b, List.mem_of_mem_filter hbc, by rw [hbe, mkEntryGeneral_text]⟩
    · intro h1 hpi hnum e he
      rcases pass3_single_split r.1 r.2.1
          (l.detect_content_indicators (raw.map mkTextBlock)) r.2.2 h1 with
        hcase | ⟨tt, _, hcase⟩
      · rw [hcase] at hres
        injection hres with _ hb
        rw [← hb] at he
        cases he
      · rw [hcase, pass3Single_poster _ _ _ _ _ _ hpi hnum] at hres
        have ho : (posterPath (r.2.2.filter (candOK true r.1))
            (l.detect_content_indicators (raw.map mkTextBlock)).form r.1).2 = o := by
          rw [hres]
        rw [← ho] at he
        exact posterPath_text _ _ _ e he

/-- Witness for C9 at the two-page document `ex2raw`. -/
theorem C9_trailing_space_witness :
    (analyzeDocument freshLearner ex2raw 400 =
      some ("A Research Document About Things",
        [⟨"H1", "Introduction And Background Wow ", 1⟩,
         ⟨"H2", "12. Research Overview ", 1⟩])) ∧
    ((totalPages (enrichBlocks freshLearner ex2raw 400) ≠ 1 →
      ∀ e ∈ [(⟨"H1", "Introduction And Background Wow ", 1⟩ : OutlineEntry),
             ⟨"H2", "12. Research Overview ", 1⟩],
        ∃ b, b ∈ enrichBlocks freshLearner ex2raw 400 ∧
          e.text = pyStripS b.text ++ " ") ∧
     (totalPages (enrichBlocks freshLearner ex2raw 400) = 1 →
      posterIndicators (freshLearner.detect_content_indicators
        (ex2raw.map mkTextBlock)) = true →
      (enrichBlocks freshLearner ex2raw 400).any
        (fun b => b.numbering_pattern.isSome) = false →
      ∀ e ∈ [(⟨"H1", "Introduction And Background Wow ", 1⟩ : OutlineEntry),
             ⟨"H2", "12. Research Overview ", 1⟩],
        ∃ s, e.text = s ++ " ")) :=
  ⟨by decide, C9_trailing_space freshLearner ex2raw 400
    ("A Research Document About Things")
    [⟨"H1", "Introduction And Background Wow ", 1⟩,
     ⟨"H2", "12. Research Overview ", 1⟩] (by decide)⟩

/-! ### Claim C5: pattern order -/

/-- A head matching the two-level pattern `^\d+\.\d+\.` also matches the
single-level pattern `^\d+\.`. -/
theorem twoLevel_implies_digitDot {l : List Char}
    (h : matchTwoLevelDot l = true) : matchDigitDot l = true := by
  unfold matchTwoLevelDot at h
  unfold matchDigitDot
  unfold digitsThen at h ⊢
  cases l with
  | nil => cases h
  | cons c r =>
    rw [Bool.and_eq_true] at h ⊢
    refine ⟨h.1, ?_⟩
    have h2 := h.2
    cases hd : r.dropWhile isDigitC with
    | nil => rw [hd] at h2; cases h2
    | cons x r2 =>
      rw [hd] at h2
      dsimp only at h2
      split at h2
      · rename_i heq
        injection heq with hx _
        rw [hx]
        rfl
      · cases h2

/-- When the single-level pattern was learned, it heads the learned list:
`^\d+\.` is the first entry of `test_patterns` and the hierarchical
patterns are appended at the end. -/
theorem digitDot_head_of_mem {l : PatternLearner} {bs : List TextBlock}
    (hd : NumPat.digitDot ∈ l.detect_numbering_patterns bs) :
    ∃ rest, l.detect_numbering_patterns bs = NumPat.digitDot :: rest := by
  simp only [PatternLearner.detect_numbering_patterns] at hd ⊢
  by_cases hP : ((numberingCandidates bs).any
      (fun c => NumPat.digitDot.matchesL c.data)) = true
  · have h0 : testPatterns.filter
        (fun p => (numberingCandidates bs).any (fun c => p.matchesL c.data)) =
        NumPat.digitDot :: testPatterns.tail.filter
          (fun p => (numberingCandidates bs).any (fun c => p.matchesL c.data)) := by
      show List.filter _ (NumPat.digitDot :: testPatterns.tail) = _
      rw [List.filter_cons, if_pos (show ((numberingCandidates bs).any
        (fun c => NumPat.digitDot.matchesL c.data)) = true from hP)]
    rw [h0]
    split
    · split
      · exact ⟨_, rfl⟩
      · exact ⟨_, rfl⟩
    · exact ⟨_, rfl⟩
  · exfalso
    have hnot : NumPat.digitDot ∉ testPatterns.filter
        (fun p => (numberingCandidates bs).any (fun c => p.matchesL c.data)) := by
      intro hmem
      exact hP (List.mem_filter.mp hmem).2
    split at hd
    · split at hd
      · rcases List.mem_append.mp hd with hmem | hmem
        · exact hnot hmem
        · simp at hmem
      · exact hnot hd
    · exact hnot hd

/-- Claim C5 amended: the learned patterns are tested in the source's
list order — the single-level `^\d+\.` first among those learned, the
hierarchical `^\d+\.\d+\.` and `^\d+\.\d+\.\d+\.` appended last — and the
first match wins.  Consequently, whenever the single-level pattern was
learned, every non-OCR fragment whose head matches the two-level pattern
is classified with the single-level tag `"x."`, never `"x.y."`. -/
theorem C5_first_match_wins (l : PatternLearner) (bs : List TextBlock)
    (b : TextBlock)
    (hd : NumPat.digitDot ∈ l.detect_numbering_patterns bs)
    (hocr : b.is_ocr_text = false)
    (hm : matchTwoLevelDot (pyStripS (strTakeS 25 b.text)).data = true) :
    b.detect_numbering_pattern (l.detect_numbering_patterns bs) = some ("x.") := by
  obtain ⟨rest, hr⟩ := digitDot_head_of_mem hd
  unfold TextBlock.detect_numbering_pattern
  rw [hocr, hr]
  have h1 : matchDigitDot (pyStripS (strTakeS 25 b.text)).data = true :=
    twoLevel_implies_digitDot hm
  simp only [if_false, Bool.false_eq_true]
  rw [List.find?_cons_of_pos _ (by exact h1)]
  rfl

/-- Witness for C5 (amended) at the document `ex5raw`. -/
theorem C5_first_match_wins_witness :
    (NumPat.digitDot ∈
        freshLearner.detect_numbering_patterns (ex5raw.map mkTextBlock) ∧
      (mkTextBlock ⟨"2.1. Goal", 12, "Helvetica", 0, 0, 100, 10, 0, false⟩).is_ocr_text
        = false ∧
      matchTwoLevelDot (pyStripS (strTakeS 25
        (mkTextBlock ⟨"2.1. Goal", 12, "Helvetica", 0, 0, 100, 10, 0, false⟩).text)).data
        = true) ∧
    (mkTextBlock ⟨"2.1. Goal", 12, "Helvetica", 0, 0, 100, 10, 0, false⟩).detect_numbering_pattern
      (freshLearner.detect_numbering_patterns (ex5raw.map mkTextBlock)) = some ("x.") :=
  ⟨⟨by decide, by decide, by decide⟩,
    C5_first_match_wins freshLearner (ex5raw.map mkTextBlock)
      (mkTextBlock ⟨"2.1. Goal", 12, "Helvetica", 0, 0, 100, 10, 0, false⟩)
      (by decide) (by decide) (by decide)⟩

/-! ### Claim C6: the mode tie-break -/

/-- The font sizes over which `_pass2` takes the mode. -/
def bodySizes (bs : List TextBlock) : List ℚ :=
  (bodyOf bs).map (fun b => b.font_size)

/-- Python `max` keeps the first maximum: the fold inside `mostCommon1`
returns an element of the list that maximizes the count, and every
element strictly before it in the list has a strictly smaller count. -/
theorem foldl_firstMax (cnt : ℚ → ℕ) :
    ∀ (ks : List ℚ) (k : ℚ),
      ∃ l1 l2,
        k :: ks = l1 ++ (ks.foldl (fun best k2 => if cnt best < cnt k2 then k2 else best) k) :: l2 ∧
        (∀ j ∈ l1, cnt j < cnt (ks.foldl (fun best k2 => if cnt best < cnt k2 then k2 else best) k)) ∧
        (∀ j ∈ k :: ks, cnt j ≤ cnt (ks.foldl (fun best k2 => if cnt best < cnt k2 then k2 else best) k)) := by
  intro ks
  induction ks with
  | nil =>
    intro k
    refine ⟨[], [], by simp, by simp, ?_⟩
    intro j hj
    rcases List.mem_singleton.mp hj with rfl
    simp
  | cons x t ih =>
    intro k
    simp only [List.foldl_cons]
    by_cases hx : cnt k < cnt x
    · rw [if_pos hx]
      obtain ⟨l1, l2, heq, hlt, hle⟩ := ih x
      refine ⟨k :: l1, l2, ?_, ?_, ?_⟩
      · rw [List.cons_append, ← heq]
      · intro j hj
        rcases List.mem_cons.mp hj with rfl | hj
        · exact lt_of_lt_of_le hx (hle x (List.mem_cons_self _ _))
        · exact hlt j hj
      · intro j hj
        rcases List.mem_cons.mp hj with rfl | hj
        · exact le_of_lt (lt_of_lt_of_le hx (hle x (List.mem_cons_self _ _)))
        · exact hle j hj
    · rw [if_neg hx]
      obtain ⟨l1, l2, heq, hlt, hle⟩ := ih k
      cases l1 with
      | nil =>
        simp only [List.nil_append] at heq
        have hk : t.foldl (fun best k2 => if cnt best < cnt k2 then k2 else best) k = k := by
          have := heq
          injection this with h1 _
          exact h1.symm
        refine ⟨[], x :: t, ?_, by simp, ?_⟩
        · rw [hk]
          rfl
        · intro j hj
          rw [hk]
          rcases List.mem_cons.mp hj with rfl | hj
          · exact le_refl _
          · rcases List.mem_cons.mp hj with rfl | hj
            · exact le_of_not_lt hx
            · have := hle j (List.mem_cons_of_mem _ hj)
              rwa [hk] at this
      | cons a l1' =>
        rw [List.cons_append] at heq
        injection heq with ha ht
        refine ⟨k :: x :: l1', l2, ?_, ?_, ?_⟩
        · rw [List.cons_append, List.cons_append, ← ht]
        · intro j hj
          rcases List.mem_cons.mp hj with rfl | hj
          · have := hlt a (List.mem_cons_self _ _)
            rwa [← ha] at this
          · rcases List.mem_cons.mp hj with rfl | hj
            · have h1 := hlt a (List.mem_cons_self _ _)
              rw [← ha] at h1
              exact lt_of_le_of_lt (le_of_not_lt hx) h1
            · exact hlt j (List.mem_cons_of_mem _ hj)
        · intro j hj
          rcases List.mem_cons.mp hj with rfl | hj
          · exact hle j (List.mem_cons_self _ _)
          · rcases List.mem_cons.mp hj with rfl | hj
            · have h1 := hlt a (List.mem_cons_self _ _)
              rw [← ha] at h1
              exact le_of_lt (lt_of_le_of_lt (le_of_not_lt hx) h1)
            · exact hle j (List.mem_cons_of_mem _ hj)

/-- Specification of `Counter(xs).most_common(1)[0][0]`: the result is an
element of maximal count, and among the Counter keys (first-occurrence
order) every key before it counts strictly less — the tie-break is first
occurrence, not smallness. -/
theorem mostCommon1_spec {xs : List ℚ} {m : ℚ} (h : mostCommon1 xs = some m) :
    m ∈ xs ∧ (∀ s ∈ xs, xs.count s ≤ xs.count m) ∧
      ∃ l1 l2, counterKeys xs = l1 ++ m :: l2 ∧
        ∀ s ∈ l1, xs.count s < xs.count m := by
  unfold mostCommon1 at h
  split at h
  · cases h
  · rename_i k ks hk
    injection h with hm
    obtain ⟨l1, l2, heq, hlt, hle⟩ := foldl_firstMax (fun q => xs.count q) ks k
    rw [hm] at heq hlt hle
    constructor
    · exact counterKeys_mem.mp (by
        rw [hk, heq]
        exact List.mem_append.mpr (Or.inr (List.mem_cons_self _ _)))
    · constructor
      · intro s hs
        exact hle s (by rw [← hk]; exact counterKeys_mem.mpr hs)
      · exact ⟨l1, l2, by rw [hk, heq], hlt⟩

/-- Claim C6 amended: when several body font sizes are equally frequent,
`body_font_size` is the first key of maximal count in Counter iteration
(first-occurrence) order — the earliest-seen size wins, not the
smaller. -/
theorem C6_mode_tie_first_occurrence (bs : List TextBlock) (m : ℚ)
    (h : (pass2 bs).map (fun r => r.1) = some m) :
    m ∈ bodySizes bs ∧
    (∀ s ∈ bodySizes bs, (bodySizes bs).count s ≤ (bodySizes bs).count m) ∧
    ∃ l1 l2, counterKeys (bodySizes bs) = l1 ++ m :: l2 ∧
      ∀ s ∈ l1, (bodySizes bs).count s < (bodySizes bs).count m := by
  cases hp : pass2 bs with
  | none => rw [hp] at h; cases h
  | some r =>
    rw [hp] at h
    injection h with h
    have hm2 : r.1 = m := h
    obtain ⟨bl, ti, hm, h1, _, _⟩ := pass2_eq_some hp
    rw [← hm2, h1]
    exact mostCommon1_spec hm

/-- Witness for C6 (amended) at the enriched blocks of `ex6raw`. -/
theorem C6_mode_tie_first_occurrence_witness :
    ((pass2 exC6bs).map (fun r => r.1) = some 12) ∧
    ((12 : ℚ) ∈ bodySizes exC6bs ∧
     (∀ s ∈ bodySizes exC6bs, (bodySizes exC6bs).count s ≤ (bodySizes exC6bs).count 12) ∧
     ∃ l1 l2, counterKeys (bodySizes exC6bs) = l1 ++ (12 : ℚ) :: l2 ∧
       ∀ s ∈ l1, (bodySizes exC6bs).count s < (bodySizes exC6bs).count 12) :=
  ⟨by decide, C6_mode_tie_first_occurrence exC6bs 12 (by decide)⟩

/-! ### Claim C4: outline ordering -/

/-- The ingestion-order invariant between two consecutive raw fragments:
page order, then top-to-bottom within a page. -/
def rawPageYB (a b : RawBlock) : Bool :=
  decide (a.page_num < b.page_num) ||
    (a.page_num == b.page_num && decide (a.y0 ≤ b.y0))

/-- The ingestion-order invariant of §3 of the specification, as a
checkable condition on the raw fragment list. -/
def ingestionOrderedB : List RawBlock → Bool
  | [] => true
  | [_] => true
  | a :: b :: t => rawPageYB a b && ingestionOrderedB (b :: t)

/-- Non-strict `(page, y)` order on raw fragments. -/
def rawPageYP (a b : RawBlock) : Prop :=
  a.page_num < b.page_num ∨ (a.page_num = b.page_num ∧ a.y0 ≤ b.y0)

/-- Non-strict `(page, y)` order on enriched blocks. -/
def pageYle (a b : TextBlock) : Prop :=
  a.page_num < b.page_num ∨ (a.page_num = b.page_num ∧ a.y_position ≤ b.y_position)

/-- Two outline entries are ordered when their pages increase, or they
share a page and stem (via the stripped-text-plus-space construction)
from fragments with non-decreasing y. -/
def EntryOrdered (bs : List TextBlock) (e1 e2 : OutlineEntry) : Prop :=
  e1.page < e2.page ∨ (e1.page = e2.page ∧ ∃ b1, b1 ∈ bs ∧ ∃ b2, b2 ∈ bs ∧
    e1.text = pyStripS b1.text ++ " " ∧ e2.text = pyStripS b2.text ++ " " ∧
    b1.y_position ≤ b2.y_position)

/-- `rawPageYP` is transitive. -/
theorem rawPageYP_trans {a b c : RawBlock} (h1 : rawPageYP a b)
    (h2 : rawPageYP b c) : rawPageYP a c := by
  rcases h1 with h1 | ⟨h1, h1y⟩ <;> rcases h2 with h2 | ⟨h2, h2y⟩
  · exact Or.inl (lt_trans h1 h2)
  · exact Or.inl (h2 ▸ h1)
  · exact Or.inl (h1 ▸ h2)
  · exact Or.inr ⟨h1.trans h2, le_trans h1y h2y⟩

/-- The consecutive-pair check implies the full pairwise order. -/
theorem ordered_pairwise : ∀ (raw : List RawBlock),
    ingestionOrderedB raw = true → raw.Pairwise rawPageYP := by
  intro raw
  induction raw with
  | nil => intro _; exact List.Pairwise.nil
  | cons a t ih =>
    intro h
    cases t with
    | nil => simp
    | cons b t2 =>
      unfold ingestionOrderedB at h
      rw [Bool.and_eq_true] at h
      have hab : rawPageYP a b := by
        unfold rawPageYB at h
        rcases Bool.or_eq_true _ _ |>.mp h.1 with h1 | h1
        · exact Or.inl (of_decide_eq_true h1)
        · rw [Bool.and_eq_true] at h1
          exact Or.inr ⟨by simpa using h1.1, of_decide_eq_true h1.2⟩
      have hpw := ih h.2
      refine List.Pairwise.cons ?_ hpw
      intro y hy
      rcases List.mem_cons.mp hy with rfl | hy
      · exact hab
      · exact rawPageYP_trans hab ((List.pairwise_cons.mp hpw).1 y hy)

/-- Order transfer: an ingestion-ordered document yields enriched blocks
pairwise ordered by `(page, y)`. -/
theorem enrich_pairwise {l : PatternLearner} {raw : List RawBlock} {pw : ℚ}
    {r : ℚ × List ℚ × List TextBlock}
    (hp : pass2 (pass1 pw (learnUpdateAll l (raw.map mkTextBlock))) = some r)
    (hord : ingestionOrderedB raw = true) : r.2.2.Pairwise pageYle := by
  have hmap := enrich_pagey hp
  have h1 : raw.Pairwise rawPageYP := ordered_pairwise raw hord
  have h2 : (raw.map (fun rb => (rb.page_num, rb.y0))).Pairwise
      (fun p q : ℕ × ℚ => p.1 < q.1 ∨ (p.1 = q.1 ∧ p.2 ≤ q.2)) := by
    rw [List.pairwise_map]
    exact h1.imp (fun h => h)
  rw [← hmap, List.pairwise_map] at h2
  exact h2.imp (fun h => h)

/-- The text of every enriched block is stripped (no trailing space). -/
theorem enrich_text_no_trail {l : PatternLearner} {raw : List RawBlock} {pw : ℚ}
    {r : ℚ × List ℚ × List TextBlock}
    (hp : pass2 (pass1 pw (learnUpdateAll l (raw.map mkTextBlock))) = some r) :
    ∀ b ∈ r.2.2, endsWithL [' '] b.text.data = false := by
  intro b hb
  have hmap := enrich_texts hp
  have hmem : b.text ∈ r.2.2.map (fun b => b.text) := List.mem_map_of_mem _ hb
  rw [hmap] at hmem
  obtain ⟨rb, _, heq⟩ := List.mem_map.mp hmem
  rw [← heq]
  exact cleanTextS_no_trail _

/-- When no block text carries a trailing space, the sort-key lookup of
`outline.sort` always misses (entry texts end in a space) and yields the
default `0`. -/
theorem lookupY_zero {bs : List TextBlock}
    (ht : ∀ b ∈ bs, endsWithL [' '] b.text.data = false) (s : String) :
    lookupY bs (s ++ " ") = 0 := by
  unfold lookupY
  rw [List.find?_eq_none.mpr]
  · rfl
  · intro b hb
    have hne : b.text ≠ s ++ " " := ne_of_no_trail (ht b hb)
    simpa using hne

/-- Lists of length at most one are pairwise-anything. -/
theorem pairwise_of_length_le_one {α : Type} {R : α → α → Prop} {l : List α}
    (h : l.length ≤ 1) : l.Pairwise R := by
  cases l with
  | nil => exact List.Pairwise.nil
  | cons a t =>
    cases t with
    | nil => simp
    | cons b t2 => simp at h

/-- Claim C4: for every input satisfying the ingestion-order invariant
(fragments in page order, top-to-bottom within a page), the returned
outline is sorted non-decreasingly by page, and entries sharing a page
stem from fragments of non-decreasing y position. -/
theorem C4_outline_sorted (l : PatternLearner) (raw : List RawBlock) (pw : ℚ)
    (t : String) (o : List OutlineEntry)
    (hord : ingestionOrderedB raw = true)
    (hres : analyzeDocument l raw pw = some (t, o)) :
    o.Pairwise (EntryOrdered (enrichBlocks l raw pw)) := by
  simp only [analyzeDocument] at hres
  cases hp : pass2 (pass1 pw (learnUpdateAll l (raw.map mkTextBlock))) with
  | none => rw [hp] at hres; cases hres
  | some r =>
    rw [hp] at hres
    simp only [Option.some.injEq] at hres
    have henr : enrichBlocks l raw pw = r.2.2 := by
      simp only [enrichBlocks, hp]
    rw [henr]
    by_cases h1 : totalPages r.2.2 = 1
    · refine pairwise_of_length_le_one ?_
      rcases pass3_single_split r.1 r.2.1
          (l.detect_content_indicators (raw.map mkTextBlock)) r.2.2 h1 with
        hcase | ⟨tt, _, hcase⟩
      · rw [hcase] at hres
        injection hres with _ hb
        rw [← hb]
        simp
      · rw [hcase] at hres
        have ho : (pass3Single r.1 (l.detect_content_indicators (raw.map mkTextBlock))
            r.2.2 (r.2.2.filter (candOK true r.1)) tt.1
            (tt.2.map (fun (b : TextBlock) => b.text))).2 = o := by rw [hres]
        rw [← ho]
        exact pass3Single_shape _ _ _ _ _ _
    · rcases pass3_general_split r.1 r.2.1
          (l.detect_content_indicators (raw.map mkTextBlock)) r.2.2 h1 with
        hcase | ⟨tt, _, hcase⟩
      · rw [hcase] at hres
        injection hres with _ hb
        rw [← hb]
        exact List.Pairwise.nil
      · rw [hcase] at hres
        have ho : (pass3General r.1 r.2.1 r.2.2 (r.2.2.filter (candOK false r.1)) tt.1
            (tt.2.map (fun (b : TextBlock) => b.text))).2 = o := by rw [hres]
        have hnt := enrich_text_no_trail hp
        have hpw : r.2.2.Pairwise pageYle := enrich_pairwise hp hord
        have hobs_sub : (outlineBlocks (r.2.2.filter (candOK false r.1))
            (tt.2.map (fun (b : TextBlock) => b.text))).Sublist r.2.2 := by
          unfold outlineBlocks
          exact (List.filter_sublist _).trans (List.filter_sublist _)
        have hobs_pw := hpw.sublist hobs_sub
        have hkey : ∀ b ∈ outlineBlocks (r.2.2.filter (candOK false r.1))
            (tt.2.map (fun (b : TextBlock) => b.text)),
            ∀ tiers lm, lookupY r.2.2 ((mkEntryGeneral tiers lm b).text) = 0 := by
          intro b _ tiers lm
          rw [mkEntryGeneral_text]
          exact lookupY_zero hnt _
        have hsorted : List.Sorted (entryLE r.2.2)
            ((outlineBlocks (r.2.2.filter (candOK false r.1))
              (tt.2.map (fun (b : TextBlock) => b.text))).map
              (mkEntryGeneral r.2.1 (assignRemaining r.2.1
                (buildLevelState r.2.1 (r.2.2.filter (candOK false r.1))).1
                (List.insertionSort clusterLE
                  (buildLevelState r.2.1 (r.2.2.filter (candOK false r.1))).2)))) := by
          rw [List.Sorted, List.pairwise_map]
          refine List.Pairwise.imp_of_mem ?_ hobs_pw
          intro b1 b2 hm1 hm2 hr
          unfold entryLE
          rw [mkEntryGeneral_page, mkEntryGeneral_page, hkey b1 hm1, hkey b2 hm2]
          rcases hr with hr | ⟨hr, _⟩
          · exact Or.inl hr
          · exact Or.inr ⟨hr, le_refl _⟩
        have ho2 : o = (outlineBlocks (r.2.2.filter (candOK false r.1))
            (tt.2.map (fun (b : TextBlock) => b.text))).map
            (mkEntryGeneral r.2.1 (assignRemaining r.2.1
              (buildLevelState r.2.1 (r.2.2.filter (candOK false r.1))).1
              (List.insertionSort clusterLE
                (buildLevelState r.2.1 (r.2.2.filter (candOK false r.1))).2))) := by
          rw [← ho]
          exact List.Sorted.insertionSort_eq hsorted
        rw [ho2, List.pairwise_map]
        refine List.Pairwise.imp_of_mem ?_ hobs_pw
        intro b1 b2 hm1 hm2 hr
        unfold EntryOrdered
        rw [mkEntryGeneral_page, mkEntryGeneral_page]
        rcases hr with hr | ⟨hr, hy⟩
        · exact Or.inl hr
        · exact Or.inr ⟨hr, b1, hobs_sub.mem hm1, b2, hobs_sub.mem hm2,
            mkEntryGeneral_text _ _ _, mkEntryGeneral_text _ _ _, hy⟩

/-- Witness for C4 at the ingestion-ordered two-page document `ex2raw`. -/
theorem C4_outline_sorted_witness :
    (ingestionOrderedB ex2raw = true ∧
     analyzeDocument freshLearner ex2raw 400 =
       some ("A Research Document About Things",
         [⟨"H1", "Introduction And Background Wow ", 1⟩,
          ⟨"H2", "12. Research Overview ", 1⟩])) ∧
    List.Pairwise (EntryOrdered (enrichBlocks freshLearner ex2raw 400))
      [⟨"H1", "Introduction And Background Wow ", 1⟩,
       ⟨"H2", "12. Research Overview ", 1⟩] :=
  ⟨⟨by decide, by decide⟩,
    C4_outline_sorted freshLearner ex2raw 400 ("A Research Document About Things")
      [⟨"H1", "Introduction And Background Wow ", 1⟩,
       ⟨"H2", "12. Research Overview ", 1⟩] (by decide) (by decide)⟩

/-! ### Claim C8: single-page title selection -/

/-- The running maximum of `Python max(..., key=font_size)` is a member
of the candidate list and bounds every font size in it. -/
theorem maxFold_spec : ∀ (l : List TextBlock) (b0 : TextBlock),
    (l.foldl (fun best x => if best.font_size < x.font_size then x else best) b0) ∈ b0 :: l ∧
    ∀ x ∈ b0 :: l, x.font_size ≤
      (l.foldl (fun best x => if best.font_size < x.font_size then x else best) b0).font_size := by
  intro l
  induction l with
  | nil =>
    intro b0
    exact ⟨List.mem_singleton_self _,
      by intro x hx; rw [List.mem_singleton] at hx; rw [hx]; exact le_refl _⟩
  | cons c tl ih =>
    intro b0
    simp only [List.foldl_cons]
    have step : (if b0.font_size < c.font_size then c else b0) ∈ [b0, c] := by
      split
      · simp
      · simp
    obtain ⟨hmem, hmax⟩ := ih (if b0.font_size < c.font_size then c else b0)
    constructor
    · rcases List.mem_cons.mp hmem with he | ht
      · rw [he]
        rcases List.mem_cons.mp step with h | h
        · rw [h]; exact List.mem_cons_self _ _
        · rw [List.mem_singleton] at h
          rw [h]
          exact List.mem_cons_of_mem _ (List.mem_cons_self _ _)
      · exact List.mem_cons_of_mem _ (List.mem_cons_of_mem _ ht)
    · intro x hx
      rcases List.mem_cons.mp hx with he | hx2
      · have hb0 : b0.font_size ≤ (if b0.font_size < c.font_size then c else b0).font_size := by
          split
          · exact le_of_lt (by assumption)
          · exact le_refl _
        rw [he]
        exact hb0.trans (hmax _ (List.mem_cons_self _ _))
      · rcases List.mem_cons.mp hx2 with he | ht
        · have hc : c.font_size ≤ (if b0.font_size < c.font_size then c else b0).font_size := by
            split
            · exact le_refl _
            · exact le_of_not_lt (by assumption)
          rw [he]
          exact hc.trans (hmax _ (List.mem_cons_self _ _))
        · exact hmax x (List.mem_cons_of_mem _ ht)

/-- `max(first_page_blocks, key=lambda b: b.font_size)` returns a member
whose size dominates the list. -/
theorem maxByFontSize_mem {l : List TextBlock} {m : TextBlock}
    (h : maxByFontSize l = some m) :
    m ∈ l ∧ ∀ x ∈ l, x.font_size ≤ m.font_size := by
  cases l with
  | nil => cases h
  | cons b0 tl =>
    unfold maxByFontSize at h
    injection h with h
    rw [← h]
    exact maxFold_spec tl b0

instance : IsTotal TextBlock negSizeYLE := by
  constructor
  intro a b
  unfold negSizeYLE
  rcases lt_trichotomy a.font_size b.font_size with h | h | h
  · exact Or.inr (Or.inl h)
  · rcases le_total a.y_position b.y_position with hy | hy
    · exact Or.inl (Or.inr ⟨h, hy⟩)
    · exact Or.inr (Or.inr ⟨h.symm, hy⟩)
  · exact Or.inl (Or.inl h)

instance : IsTrans TextBlock negSizeYLE := by
  constructor
  intro a b c hab hbc
  unfold negSizeYLE at hab hbc ⊢
  rcases hab with h1 | ⟨h1, h1y⟩ <;> rcases hbc with h2 | ⟨h2, h2y⟩
  · exact Or.inl (lt_trans h2 h1)
  · exact Or.inl (h2 ▸ h1)
  · exact Or.inl (h1 ▸ h2)
  · exact Or.inr ⟨h1.trans h2, h1y.trans h2y⟩

/-- The head of the `(-font_size, y_position)` sort carries the maximal
font size of the list. -/
theorem sortNegSizeY_head_max {fp : List TextBlock} {f0 : TextBlock}
    {rest : List TextBlock} (h : sortNegSizeY fp = f0 :: rest) :
    ∀ x ∈ fp, x.font_size ≤ f0.font_size := by
  intro x hx
  have hperm := List.perm_insertionSort negSizeYLE fp
  rw [show List.insertionSort negSizeYLE fp = sortNegSizeY fp from rfl, h] at hperm
  have hx2 : x ∈ f0 :: rest := hperm.symm.subset hx
  have hsorted := List.sorted_insertionSort negSizeYLE fp
  rw [show List.insertionSort negSizeYLE fp = sortNegSizeY fp from rfl, h] at hsorted
  rcases List.mem_cons.mp hx2 with he | ht
  · rw [he]
  · have := (List.pairwise_cons.mp hsorted).1 x ht
    rcases this with hlt | ⟨heq, _⟩
    · exact le_of_lt hlt
    · exact le_of_eq heq.symm

/-- The head of the sorted first-page list realises `pageZeroMax`. -/
theorem pageZeroMax_eq_head {bs : List TextBlock} {f0 : TextBlock}
    {rest : List TextBlock}
    (h : sortNegSizeY (bs.filter (fun b => b.page_num == 0)) = f0 :: rest) :
    pageZeroMax bs = f0.font_size := by
  cases hfp : bs.filter (fun b => b.page_num == 0) with
  | nil =>
    rw [hfp] at h
    cases h
  | cons a tl =>
    rw [hfp] at h
    have hm : maxByFontSize (a :: tl) = some (tl.foldl
        (fun best x => if best.font_size < x.font_size then x else best) a) := rfl
    obtain ⟨hmem, hmax⟩ := maxByFontSize_mem hm
    have hf0mem : f0 ∈ a :: tl := by
      have hperm := List.perm_insertionSort negSizeYLE (a :: tl)
      rw [show List.insertionSort negSizeYLE (a :: tl) = sortNegSizeY (a :: tl) from rfl,
        h] at hperm
      exact hperm.subset (List.mem_cons_self _ _)
    have h1 := sortNegSizeY_head_max h _ hmem
    have h2 := hmax f0 hf0mem
    unfold pageZeroMax
    rw [hfp, hm]
    exact le_antisymm h1 h2

/-- The single-page selector keeps at most one fragment. -/
theorem titleSingle_len (sorted_fp : List TextBlock) (max_fs : ℚ) :
    (titleSingle 1 sorted_fp max_fs).length ≤ 1 := by
  simp only [titleSingle]
  rw [if_pos (by rfl)]
  split
  · simp
  · simp

/-- When the single-page selector returns exactly one fragment, that
fragment comes from the candidate list, reaches 80% of the maximal size,
is centered or reaches 90% of it, and strips to more than 3 characters. -/
theorem titleSingle_one {sorted_fp : List TextBlock} {max_fs : ℚ} {b : TextBlock}
    (h : titleSingle 1 sorted_fp max_fs = [b]) :
    b ∈ sorted_fp ∧ max_fs * (4/5) ≤ b.font_size ∧
      (b.is_centered = true ∨ max_fs * (9/10) ≤ b.font_size) ∧
      3 < (pyStripS b.text).data.length := by
  simp only [titleSingle] at h
  rw [if_pos (by rfl)] at h
  cases hf : ((sorted_fp.filter
      (fun b => decide (max_fs * (4/5) ≤ b.font_size))).take 3).find?
      (fun b => (b.is_centered || decide (max_fs * (9/10) ≤ b.font_size)) &&
        decide (3 < (pyStripS b.text).data.length)) with
  | none =>
    rw [hf] at h
    cases h
  | some b2 =>
    rw [hf] at h
    have hb : b2 = b := by injection h
    rw [hb] at hf
    have hp := List.find?_some hf
    have hmem := List.mem_of_find?_eq_some hf
    have hmem2 := List.take_subset 3 _ hmem
    rw [List.mem_filter] at hmem2
    rw [Bool.and_eq_true] at hp
    refine ⟨hmem2.1, of_decide_eq_true hmem2.2, ?_, of_decide_eq_true hp.2⟩
    rcases Bool.or_eq_true _ _ |>.mp hp.1 with h1 | h1
    · exact Or.inl h1
    · exact Or.inr (of_decide_eq_true h1)

/-- The title emitted by the single-page branch is either the one from
the title-resolution step, or (when that one is empty) the stripped text
of the page's largest fragment. -/
theorem pass3Single_title {baseline : ℚ} {inds : Indicators}
    {bs candidates : List TextBlock} {title : String} {tts : List String}
    {t : String} {o : List OutlineEntry}
    (hpos : posterIndicators inds = false)
    (h : pass3Single baseline inds bs candidates title tts = (t, o)) :
    t = title ∨ (title = "" ∧ ∃ largest,
      maxByFontSize (bs.filter (fun b => b.page_num == 0)) = some largest ∧
      t = pyStripS largest.text) := by
  simp only [pass3Single, hpos, Bool.false_and, Bool.false_eq_true, if_false] at h
  by_cases htitle : title = ""
  · rw [if_pos htitle] at h
    cases hmx : maxByFontSize (bs.filter (fun b => b.page_num == 0)) with
    | none =>
      simp only [hmx] at h
      split at h <;> (injection h with h1 _; exact Or.inl h1.symm)
    | some largest =>
      simp only [hmx] at h
      split at h <;> (injection h with h1 _; exact Or.inr ⟨htitle, largest, rfl, h1.symm⟩)
  · rw [if_neg htitle] at h
    split at h <;> (injection h with h1 _; exact Or.inl h1.symm)

/-- The title-resolution step of a single-page document: a non-empty
title is the stripped text of exactly one first-page fragment, selected
by the 80%-of-max / centered-or-90% / longer-than-3 rule. -/
theorem titleStep_one {bs : List TextBlock} {tt : String × List TextBlock}
    (h : titleStep bs 1 = some tt) (hne : tt.1 ≠ "") :
    ∃ b, b ∈ bs ∧ b.page_num = 0 ∧ tt.1 = pyStripS b.text ∧
      pageZeroMax bs * (4/5) ≤ b.font_size ∧
      (b.is_centered = true ∨ pageZeroMax bs * (9/10) ≤ b.font_size) ∧
      3 < (pyStripS b.text).data.length := by
  simp only [titleStep] at h
  split at h
  · injection h with h
    rw [← h] at hne
    exact absurd rfl hne
  · cases hsort : sortNegSizeY (bs.filter (fun b => b.page_num == 0)) with
    | nil =>
      rw [hsort] at h
      cases h
    | cons f0 rest =>
      simp only [hsort] at h
      rw [if_neg (by decide)] at h
      cases htb : List.insertionSort yPosLE (titleSingle 1 (f0 :: rest) f0.font_size) with
      | nil =>
        simp only [htb] at h
        injection h with h
        rw [← h] at hne
        exact absurd rfl hne
      | cons b1 tl =>
        cases tl with
        | nil =>
          simp only [htb] at h
          injection h with h
          have hts : titleSingle 1 (f0 :: rest) f0.font_size = [b1] := by
            have hperm := List.perm_insertionSort yPosLE
              (titleSingle 1 (f0 :: rest) f0.font_size)
            rw [htb] at hperm
            exact List.perm_singleton.mp hperm.symm
          obtain ⟨hmem, hc1, hc2, hc3⟩ := titleSingle_one hts
          have hmem2 : b1 ∈ bs.filter (fun b => b.page_num == 0) := by
            have hperm := List.perm_insertionSort negSizeYLE
              (bs.filter (fun b => b.page_num == 0))
            rw [show List.insertionSort negSizeYLE (bs.filter (fun b => b.page_num == 0)) =
              sortNegSizeY (bs.filter (fun b => b.page_num == 0)) from rfl, hsort] at hperm
            exact hperm.subset hmem
          rw [List.mem_filter] at hmem2
          have hpz := pageZeroMax_eq_head hsort
          refine ⟨b1, hmem2.1, by simpa using hmem2.2, ?_, ?_, ?_, hc3⟩
          · rw [← h]
          · rw [hpz]; exact hc1
          · rw [hpz]
            exact hc2
        | cons b2 tl2 =>
          have hlen := (List.perm_insertionSort yPosLE
            (titleSingle 1 (f0 :: rest) f0.font_size)).length_eq
          rw [htb] at hlen
          have := titleSingle_len (f0 :: rest) f0.font_size
          rw [← hlen] at this
          simp at this

/-- Claim C8 (amended): for every single-page non-poster document whose
returned title is non-empty, the title is the stripped text of exactly
one first-page fragment — never a join of several — and that fragment
either passes the selection rule (at least 80% of the page's maximum
font size, centered or at least 90% of it, and longer than 3 characters
once stripped) or is a fragment of maximal first-page font size (the
fallback when the selection finds nothing). -/
theorem C8_single_page_title (l : PatternLearner) (raw : List RawBlock) (pw : ℚ)
    (t : String) (o : List OutlineEntry)
    (hres : analyzeDocument l raw pw = some (t, o))
    (hsp : totalPages (enrichBlocks l raw pw) = 1)
    (hpos : posterIndicators (l.detect_content_indicators (raw.map mkTextBlock)) = false)
    (ht : t ≠ "") :
    ∃ b, b ∈ enrichBlocks l raw pw ∧ b.page_num = 0 ∧ t = pyStripS b.text ∧
      ((pageZeroMax (enrichBlocks l raw pw) * (4/5) ≤ b.font_size ∧
        (b.is_centered = true ∨
          pageZeroMax (enrichBlocks l raw pw) * (9/10) ≤ b.font_size) ∧
        3 < (pyStripS b.text).data.length) ∨
       (∀ b2 ∈ enrichBlocks l raw pw, b2.page_num = 0 → b2.font_size ≤ b.font_size)) := by
  simp only [analyzeDocument] at hres
  cases hp : pass2 (pass1 pw (learnUpdateAll l (raw.map mkTextBlock))) with
  | none => rw [hp] at hres; cases hres
  | some r =>
    rw [hp] at hres
    simp only [Option.some.injEq] at hres
    have henr : enrichBlocks l raw pw = r.2.2 := by
      simp only [enrichBlocks, hp]
    rw [henr] at hsp ⊢
    rcases pass3_single_split r.1 r.2.1
        (l.detect_content_indicators (raw.map mkTextBlock)) r.2.2 hsp with
      hcase | ⟨tt, htt, hcase⟩
    · rw [hcase] at hres
      injection hres with h1 _
      exact absurd h1.symm ht
    · rw [hcase] at hres
      rcases pass3Single_title hpos hres with h1 | ⟨_, largest, hmx, h1⟩
      · rw [hsp] at htt
        obtain ⟨b, hmem, hpg, htext, hc1, hc2, hc3⟩ :=
          titleStep_one htt (fun hc => ht (h1.trans hc))
        exact ⟨b, hmem, hpg, h1.trans htext, Or.inl ⟨hc1, hc2, hc3⟩⟩
      · obtain ⟨hmem, hmax⟩ := maxByFontSize_mem hmx
        rw [List.mem_filter] at hmem
        refine ⟨largest, hmem.1, by simpa using hmem.2, h1, Or.inr ?_⟩
        intro b2 hb2 hpg2
        exact hmax b2 (List.mem_filter.mpr ⟨hb2, by simp [hpg2]⟩)

/-- Witness for C8 at the single-page non-poster document `ex8raw`. -/
theorem C8_single_page_title_witness :
    (analyzeDocument freshLearner ex8raw 400 =
        some ("Hello", [⟨"H1", "World", 0⟩]) ∧
      totalPages (enrichBlocks freshLearner ex8raw 400) = 1 ∧
      posterIndicators (freshLearner.detect_content_indicators
        (ex8raw.map mkTextBlock)) = false ∧
      ("Hello" : String) ≠ "") ∧
    ∃ b, b ∈ enrichBlocks freshLearner ex8raw 400 ∧ b.page_num = 0 ∧
      ("Hello" : String) = pyStripS b.text ∧
      ((pageZeroMax (enrichBlocks freshLearner ex8raw 400) * (4/5) ≤ b.font_size ∧
        (b.is_centered = true ∨
          pageZeroMax (enrichBlocks freshLearner ex8raw 400) * (9/10) ≤ b.font_size) ∧
        3 < (pyStripS b.text).data.length) ∨
       (∀ b2 ∈ enrichBlocks freshLearner ex8raw 400, b2.page_num = 0 →
          b2.font_size ≤ b.font_size)) :=
  ⟨⟨by decide, by decide, by decide, by decide⟩,
    C8_single_page_title freshLearner ex8raw 400 "Hello" [⟨"H1", "World", 0⟩]
      (by decide) (by decide) (by decide) (by decide)⟩

/-! ### Claim C10: independence from `is_italic` -/

/-- Forget the italic flag of a raw fragment. -/
def eraseRawB (r : RawBlock) : RawBlock := { r with is_italic := false }

/-- Forget the italic flag of an enriched block. -/
def eraseTB (b : TextBlock) : TextBlock := { b with is_italic := false }

@[simp] theorem eraseTB_text (b : TextBlock) : (eraseTB b).text = b.text := rfl

@[simp] theorem eraseTB_font_size (b : TextBlock) : (eraseTB b).font_size = b.font_size := rfl

@[simp] theorem eraseTB_font_name (b : TextBlock) : (eraseTB b).font_name = b.font_name := rfl

@[simp] theorem eraseTB_x0 (b : TextBlock) : (eraseTB b).x0 = b.x0 := rfl

@[simp] theorem eraseTB_y0 (b : TextBlock) : (eraseTB b).y0 = b.y0 := rfl

@[simp] theorem eraseTB_x1 (b : TextBlock) : (eraseTB b).x1 = b.x1 := rfl

@[simp] theorem eraseTB_y1 (b : TextBlock) : (eraseTB b).y1 = b.y1 := rfl

@[simp] theorem eraseTB_page_num (b : TextBlock) : (eraseTB b).page_num = b.page_num := rfl

@[simp] theorem eraseTB_is_ocr_text (b : TextBlock) : (eraseTB b).is_ocr_text = b.is_ocr_text := rfl

@[simp] theorem eraseTB_x_position (b : TextBlock) : (eraseTB b).x_position = b.x_position := rfl

@[simp] theorem eraseTB_y_position (b : TextBlock) : (eraseTB b).y_position = b.y_position := rfl

@[simp] theorem eraseTB_is_bold (b : TextBlock) : (eraseTB b).is_bold = b.is_bold := rfl

@[simp] theorem eraseTB_text_case (b : TextBlock) : (eraseTB b).text_case = b.text_case := rfl

@[simp] theorem eraseTB_char_count (b : TextBlock) : (eraseTB b).char_count = b.char_count := rfl

@[simp] theorem eraseTB_numbering_pattern (b : TextBlock) :
    (eraseTB b).numbering_pattern = b.numbering_pattern := rfl

@[simp] theorem eraseTB_space_above (b : TextBlock) : (eraseTB b).space_above = b.space_above := rfl

@[simp] theorem eraseTB_is_isolated (b : TextBlock) : (eraseTB b).is_isolated = b.is_isolated := rfl

@[simp] theorem eraseTB_is_centered (b : TextBlock) : (eraseTB b).is_centered = b.is_centered := rfl

@[simp] theorem eraseTB_heading_score (b : TextBlock) :
    (eraseTB b).heading_score = b.heading_score := rfl

/-- A mapped list is empty exactly when its source is. -/
theorem map_isEmpty_eq {α β : Type} (f : α → β) (l : List α) :
    (l.map f).isEmpty = l.isEmpty := by
  cases l <;> rfl

/-- Filters that ignore the italic flag commute with its erasure. -/
theorem filterE {p : TextBlock → Bool} (hp : ∀ b, p (eraseTB b) = p b)
    (bs : List TextBlock) :
    (bs.map eraseTB).filter p = (bs.filter p).map eraseTB := by
  rw [List.filter_map]
  exact congrArg _ (List.filter_congr (fun b _ => hp b))

/-- Projections that ignore the italic flag factor through its erasure. -/
theorem mapE {γ : Type} {f : TextBlock → γ} (hf : ∀ b, f (eraseTB b) = f b)
    (bs : List TextBlock) : (bs.map eraseTB).map f = bs.map f := by
  rw [List.map_map]
  exact List.map_congr_left (fun b _ => hf b)

/-- `any` over an erased list. -/
theorem anyE {p : TextBlock → Bool} (hp : ∀ b, p (eraseTB b) = p b)
    (bs : List TextBlock) : (bs.map eraseTB).any p = bs.any p := by
  induction bs with
  | nil => rfl
  | cons b t ih => simp only [List.map_cons, List.any_cons, hp, ih]

/-- `find?` over an erased list. -/
theorem findE {p : TextBlock → Bool} (hp : ∀ b, p (eraseTB b) = p b)
    (bs : List TextBlock) :
    (bs.map eraseTB).find? p = (bs.find? p).map eraseTB := by
  induction bs with
  | nil => rfl
  | cons b t ih =>
    rw [List.map_cons, List.find?_cons, List.find?_cons]
    cases hb : p b with
    | true => rw [hp b, hb]; rfl
    | false => rw [hp b, hb]; exact ih

/-- `foldl` commutes with a state transport when each step does. -/
theorem foldl_E2 {α σ : Type} (f g : σ → α → σ) (E : σ → σ) (φ : α → α)
    (h : ∀ s a, f (E s) (φ a) = E (g s a)) :
    ∀ (l : List α) (s : σ), (l.map φ).foldl f (E s) = E (l.foldl g s) := by
  intro l
  induction l with
  | nil => intro s; rfl
  | cons a t ih =>
    intro s
    rw [List.map_cons, List.foldl_cons, List.foldl_cons, h s a]
    exact ih (g s a)

/-- `foldl_E2` with the initial states spelled out. -/
theorem foldl_E2' {α σ : Type} (f g : σ → α → σ) (E : σ → σ) (φ : α → α)
    (h : ∀ s a, f (E s) (φ a) = E (g s a)) (l : List α) (s t : σ)
    (hs : s = E t) : (l.map φ).foldl f s = E (l.foldl g t) := by
  rw [hs]
  exact foldl_E2 f g E φ h l t

/-- `orderedInsert` commutes with an element transport that respects the
order. -/
theorem orderedInsert_E {α : Type} (R : α → α → Prop) [DecidableRel R] (φ : α → α)
    (hR : ∀ a b, R (φ a) (φ b) ↔ R a b) (a : α) :
    ∀ l, List.orderedInsert R (φ a) (l.map φ) = (List.orderedInsert R a l).map φ := by
  intro l
  induction l with
  | nil => rfl
  | cons b t ih =>
    rw [List.map_cons, List.orderedInsert, List.orderedInsert]
    by_cases h : R a b
    · rw [if_pos ((hR a b).mpr h), if_pos h, List.map_cons, List.map_cons]
    · rw [if_neg (fun hc => h ((hR a b).mp hc)), if_neg h, List.map_cons, ih]

/-- `insertionSort` commutes with an element transport that respects the
order. -/
theorem insertionSort_E {α : Type} (R : α → α → Prop) [DecidableRel R] (φ : α → α)
    (hR : ∀ a b, R (φ a) (φ b) ↔ R a b) :
    ∀ l, List.insertionSort R (l.map φ) = (List.insertionSort R l).map φ := by
  intro l
  induction l with
  | nil => rfl
  | cons a t ih =>
    rw [List.map_cons, List.insertionSort, List.insertionSort, ih, orderedInsert_E R φ hR]

/-- `orderedInsert` only depends on the order's extension. -/
theorem orderedInsert_congr {α : Type} {R S : α → α → Prop} [DecidableRel R]
    [DecidableRel S] (h : ∀ a b, R a b ↔ S a b) (a : α) :
    ∀ l, List.orderedInsert R a l = List.orderedInsert S a l := by
  intro l
  induction l with
  | nil => rfl
  | cons b t ih =>
    rw [List.orderedInsert, List.orderedInsert]
    by_cases hr : R a b
    · rw [if_pos hr, if_pos ((h a b).mp hr)]
    · rw [if_neg hr, if_neg (fun hc => hr ((h a b).mpr hc)), ih]

/-- `insertionSort` only depends on the order's extension. -/
theorem insertionSort_congr {α : Type} {R S : α → α → Prop} [DecidableRel R]
    [DecidableRel S] (h : ∀ a b, R a b ↔ S a b) :
    ∀ l, List.insertionSort R l = List.insertionSort S l := by
  intro l
  induction l with
  | nil => rfl
  | cons a t ih =>
    rw [List.insertionSort, List.insertionSort, ih, orderedInsert_congr h]

/-- `__init__` commutes with erasing the italic flag. -/
theorem mk_erase (r : RawBlock) : mkTextBlock (eraseRawB r) = eraseTB (mkTextBlock r) := rfl

/-- Block construction from italic-erased raw fragments. -/
theorem map_mk_erase (raw : List RawBlock) :
    (raw.map eraseRawB).map mkTextBlock = (raw.map mkTextBlock).map eraseTB := by
  rw [List.map_map, List.map_map]
  exact List.map_congr_left (fun r _ => rfl)

/-- Content-indicator learning ignores the italic flag. -/
theorem inds_erase (l : PatternLearner) (bs : List TextBlock) :
    l.detect_content_indicators (bs.map eraseTB) = l.detect_content_indicators bs := by
  simp only [PatternLearner.detect_content_indicators, List.map_map]
  rfl

/-- Numbering-pattern learning ignores the italic flag. -/
theorem numpats_erase (l : PatternLearner) (bs : List TextBlock) :
    l.detect_numbering_patterns (bs.map eraseTB) = l.detect_numbering_patterns bs := by
  simp only [PatternLearner.detect_numbering_patterns, numberingCandidates,
    List.filterMap_map]
  rfl

/-- Font-indicator learning ignores the italic flag. -/
theorem fontind_erase (l : PatternLearner) (bs : List TextBlock) :
    l.detect_font_indicators (bs.map eraseTB) = l.detect_font_indicators bs := by
  simp only [PatternLearner.detect_font_indicators, List.filter_map, List.map_map]
  rfl

/-- `_learn_document_patterns` commutes with erasing the italic flag. -/
theorem learnUpdateAll_erase (l : PatternLearner) (bs : List TextBlock) :
    learnUpdateAll l (bs.map eraseTB) = (learnUpdateAll l bs).map eraseTB := by
  simp only [learnUpdateAll, numpats_erase, fontind_erase, List.filter_map,
    List.map_map]
  exact List.map_congr_left (fun b _ => rfl)

/-- `_pass1` commutes with erasing the italic flag. -/
theorem pass1_erase (pw : ℚ) (bs : List TextBlock) :
    pass1 pw (bs.map eraseTB) = (pass1 pw bs).map eraseTB := by
  simp only [pass1, List.map_map]
  have h1 : (none :: bs.map (some ∘ eraseTB) : List (Option TextBlock)) =
      (none :: bs.map some).map (Option.map eraseTB) := by
    rw [List.map_cons, List.map_map]
    rfl
  rw [h1, List.zipWith_map, List.map_zipWith]
  have hfun : (fun (a : Option TextBlock) (b : TextBlock) =>
      pass1Upd pw (Option.map eraseTB a) (eraseTB b)) =
      (fun a b => eraseTB (pass1Upd pw a b)) := by
    funext a b
    cases a with
    | none => rfl
    | some q => rfl
  rw [hfun]

/-- The `body` selection of `_pass2` commutes with erasing the italic
flag. -/
theorem bodyOf_erase (bs : List TextBlock) :
    bodyOf (bs.map eraseTB) = (bodyOf bs).map eraseTB := by
  simp only [bodyOf]
  rw [@filterE (fun b => decide (10 < b.char_count) && decide ((8:ℚ) ≤ b.font_size))
    (fun b => rfl) bs, map_isEmpty_eq]
  split <;> rfl

/-- The body font sizes of an erased list. -/
theorem map_fs_erase (l : List TextBlock) :
    (l.map eraseTB).map (fun b : TextBlock => b.font_size) =
      l.map (fun b : TextBlock => b.font_size) :=
  @mapE ℚ (fun b : TextBlock => b.font_size) (fun b => rfl) l

/-- The page-presence filter of the tier selection, on an erased body. -/
theorem filter_sizePage_erase (body : List TextBlock) (size : ℚ) :
    (body.map eraseTB).filter
      (fun b => b.font_size == size && decide (0 < b.page_num)) =
    (body.filter (fun b => b.font_size == size && decide (0 < b.page_num))).map
      eraseTB :=
  @filterE (fun b => b.font_size == size && decide (0 < b.page_num))
    (fun b => rfl) body

/-- The rescoring map of `_pass2`, on an erased list. -/
theorem map_scoreupd_erase (baseline : ℚ) (tiers : List ℚ) (l : List TextBlock) :
    (l.map eraseTB).map
      (fun b => { b with heading_score := scoreBlock baseline tiers b }) =
    (l.map (fun b => { b with heading_score := scoreBlock baseline tiers b })).map
      eraseTB := by
  rw [List.map_map, List.map_map]
  exact List.map_congr_left (fun b _ => rfl)

/-- `_pass2` commutes with erasing the italic flag: same baseline, same
tiers, erased blocks. -/
theorem pass2_erase (bs : List TextBlock) :
    pass2 (bs.map eraseTB) =
      Option.map (fun r : ℚ × List ℚ × List TextBlock =>
        (r.1, r.2.1, r.2.2.map eraseTB)) (pass2 bs) := by
  simp only [pass2, bodyOf_erase, map_fs_erase, filter_sizePage_erase,
    map_isEmpty_eq, map_scoreupd_erase]
  cases hmc : mostCommon1 ((bodyOf bs).map (fun b => b.font_size)) with
  | none => rfl
  | some baseline => rfl

/-- Erase the italic flags inside one y-group. -/
def eraseYG (p : ℚ × List TextBlock) : ℚ × List TextBlock := (p.1, p.2.map eraseTB)

@[simp] theorem eraseYG_fst (p : ℚ × List TextBlock) : (eraseYG p).1 = p.1 := rfl

@[simp] theorem eraseYG_snd (p : ℚ × List TextBlock) : (eraseYG p).2 = p.2.map eraseTB := rfl

/-- The y-group insertion commutes with erasing the italic flag. -/
theorem insertYGroup_erase (c : TextBlock) :
    ∀ gs, insertYGroup (eraseTB c) (gs.map eraseYG) =
      ((insertYGroup c gs).1.map eraseYG, (insertYGroup c gs).2) := by
  intro gs
  induction gs with
  | nil => rfl
  | cons p rest ih =>
    obtain ⟨y, g⟩ := p
    simp only [List.map_cons, insertYGroup, eraseYG, eraseTB_y_position, eraseTB_font_size]
    by_cases hc : |c.y_position - y| ≤ max (c.font_size * (3/20)) 3
    · rw [if_pos hc, if_pos hc]
      simp [eraseYG]
    · rw [if_neg hc, if_neg hc]
      simp [ih, eraseYG]

/-- The y-group accumulation commutes with erasing the italic flag. -/
theorem addToYGroups_erase (gs : List (ℚ × List TextBlock)) (c : TextBlock) :
    addToYGroups (gs.map eraseYG) (eraseTB c) = (addToYGroups gs c).map eraseYG := by
  simp only [addToYGroups, insertYGroup_erase]
  split
  · rfl
  · simp [eraseYG]

/-- Line merging ignores the italic flag. -/
theorem mergeGroupLine_erase (g : List TextBlock) :
    mergeGroupLine (g.map eraseTB) = mergeGroupLine g := by
  unfold mergeGroupLine
  rw [List.foldl_map]
  rfl

/-- One title-line step commutes with erasing the italic flag. -/
theorem tmStep_erase (acc : List String × List TextBlock) (yg : ℚ × List TextBlock) :
    tmStep (acc.1, acc.2.map eraseTB) (eraseYG yg) =
      ((tmStep acc yg).1, (tmStep acc yg).2.map eraseTB) := by
  simp only [tmStep, eraseYG_snd,
    insertionSort_E xPosLE eraseTB (fun a b => Iff.rfl), mergeGroupLine_erase]
  split
  · simp
  · rfl

/-- The multi-page title resolver commutes with erasing the italic flag:
same title, erased title blocks. -/
theorem titleMulti_erase (l : List TextBlock) (fs : ℚ) :
    titleMulti (l.map eraseTB) fs =
      ((titleMulti l fs).1, (titleMulti l fs).2.map eraseTB) := by
  simp only [titleMulti]
  rw [@filterE (fun b => decide (fs * (17/20) ≤ b.font_size)) (fun b => rfl) l]
  rw [foldl_E2' addToYGroups addToYGroups (List.map eraseYG) eraseTB
    (fun s a => addToYGroups_erase s a) _ [] [] rfl]
  rw [insertionSort_E (fun a b : ℚ × List TextBlock => a.1 ≤ b.1) eraseYG
    (fun a b => Iff.rfl)]
  rw [foldl_E2' tmStep tmStep (fun st : List String × List TextBlock =>
      (st.1, st.2.map eraseTB)) eraseYG
    (fun s a => tmStep_erase s a) _ ([], []) ([], []) rfl]
  split
  · rfl
  · rfl

/-- The single-page title selector commutes with erasing the italic flag. -/
theorem titleSingle_erase (tp : ℕ) (l : List TextBlock) (fs : ℚ) :
    titleSingle tp (l.map eraseTB) fs = (titleSingle tp l fs).map eraseTB := by
  simp only [titleSingle]
  split
  · rw [@filterE (fun b => decide (fs * (4/5) ≤ b.font_size)) (fun b => rfl) l,
      ← List.map_take,
      @findE (fun b => (b.is_centered || decide (fs * (9/10) ≤ b.font_size)) &&
        decide (3 < (pyStripS b.text).data.length)) (fun b => rfl)]
    cases ((l.filter (fun b => decide (fs * (4/5) ≤ b.font_size))).take 3).find?
        (fun b => (b.is_centered || decide (fs * (9/10) ≤ b.font_size)) &&
          decide (3 < (pyStripS b.text).data.length)) with
    | none => rfl
    | some b => rfl
  · exact @filterE (fun b => decide (fs * (9/10) ≤ b.font_size) && b.is_centered)
      (fun b => rfl) l

/-- The title-resolution step commutes with erasing the italic flag. -/
theorem titleStep_erase (bs : List TextBlock) (tp : ℕ) :
    titleStep (bs.map eraseTB) tp =
      Option.map (fun tt : String × List TextBlock => (tt.1, tt.2.map eraseTB))
        (titleStep bs tp) := by
  simp only [titleStep]
  rw [@filterE (fun b => b.page_num == 0) (fun b => rfl) bs, map_isEmpty_eq]
  split
  · rfl
  · rw [show sortNegSizeY ((bs.filter (fun b => b.page_num == 0)).map eraseTB) =
      (sortNegSizeY (bs.filter (fun b => b.page_num == 0))).map eraseTB from
      insertionSort_E negSizeYLE eraseTB (fun a b => Iff.rfl) _]
    cases hs : sortNegSizeY (bs.filter (fun b => b.page_num == 0)) with
    | nil => rfl
    | cons f0 rest =>
      simp only [List.map_cons]
      split
      · rw [show (eraseTB f0 :: rest.map eraseTB) = (f0 :: rest).map eraseTB from rfl]
        simp only [eraseTB_font_size]
        rw [titleMulti_erase]
        rfl
      · rw [show (eraseTB f0 :: rest.map eraseTB) = (f0 :: rest).map eraseTB from rfl]
        simp only [eraseTB_font_size]
        rw [titleSingle_erase,
          insertionSort_E yPosLE eraseTB (fun a b => Iff.rfl)]
        cases List.insertionSort yPosLE (titleSingle tp (f0 :: rest) f0.font_size) with
        | nil => rfl
        | cons b1 tl =>
          cases tl with
          | nil => rfl
          | cons b2 tl2 =>
            simp only [List.map_cons, Option.map_some, eraseTB_text,
              @mapE String (fun b : TextBlock => pyStripS b.text) (fun b => rfl) tl2]
            rfl

/-- Erase the italic flag of an indexed block. -/
def eraseIx (p : ℕ × TextBlock) : ℕ × TextBlock := (p.1, eraseTB p.2)

@[simp] theorem eraseIx_fst (p : ℕ × TextBlock) : (eraseIx p).1 = p.1 := rfl

@[simp] theorem eraseIx_snd (p : ℕ × TextBlock) : (eraseIx p).2 = eraseTB p.2 := rfl

/-- The running horizontal gap ignores the italic flag. -/
theorem minGap_erase (ph : List (ℕ × TextBlock)) (o : TextBlock) :
    minGap (ph.map eraseIx) (eraseTB o) = minGap ph o := by
  unfold minGap
  rw [List.map_map]
  rfl

/-- The inner phrase-grouping step commutes with erasing the italic flag. -/
theorem pgInner_erase (cand : ℕ × TextBlock) (st : List (ℕ × TextBlock) × List ℕ)
    (other : ℕ × TextBlock) :
    pgInner (eraseIx cand) (st.1.map eraseIx, st.2) (eraseIx other) =
      ((pgInner cand st other).1.map eraseIx, (pgInner cand st other).2) := by
  simp only [pgInner, eraseIx_fst, eraseIx_snd, eraseTB_y_position,
    eraseTB_font_size, minGap_erase]
  split
  · rfl
  · split
    · cases minGap st.1 other.2 with
      | none => rfl
      | some g =>
        dsimp only
        split <;> simp [eraseIx]
    · rfl

/-- The outer phrase-grouping step commutes with erasing the italic flag. -/
theorem pgOuter_erase (sc : List (ℕ × TextBlock))
    (acc : List (List (ℕ × TextBlock)) × List ℕ) (cand : ℕ × TextBlock) :
    pgOuter (sc.map eraseIx) (acc.1.map (List.map eraseIx), acc.2) (eraseIx cand) =
      ((pgOuter sc acc cand).1.map (List.map eraseIx), (pgOuter sc acc cand).2) := by
  simp only [pgOuter, eraseIx_fst]
  split
  · rfl
  · rw [foldl_E2' (pgInner (eraseIx cand)) (pgInner cand)
      (fun st : List (ℕ × TextBlock) × List ℕ => (st.1.map eraseIx, st.2)) eraseIx
      (fun s a => pgInner_erase cand s a) sc
      ([eraseIx cand], acc.2 ++ [cand.1]) ([cand], acc.2 ++ [cand.1]) rfl]
    simp only [List.length_map]
    split
    · rw [insertionSort_E pairXLE eraseIx (fun a b => Iff.rfl)]
      simp
    · rfl

/-- Phrase grouping commutes with erasing the italic flag. -/
theorem phraseGroups_erase (sc : List (ℕ × TextBlock)) :
    phraseGroups (sc.map eraseIx) = (phraseGroups sc).map (List.map eraseIx) := by
  unfold phraseGroups
  rw [foldl_E2' (pgOuter (sc.map eraseIx)) (pgOuter sc)
    (fun acc : List (List (ℕ × TextBlock)) × List ℕ =>
      (acc.1.map (List.map eraseIx), acc.2)) eraseIx
    (fun s a => pgOuter_erase sc s a) sc ([], []) ([], []) rfl]

/-- The maximal group font size ignores the italic flag. -/
theorem groupMaxFS_erase (g : List (ℕ × TextBlock)) :
    groupMaxFS (g.map eraseIx) = groupMaxFS g := by
  cases g with
  | nil => rfl
  | cons x r =>
    simp only [List.map_cons, groupMaxFS]
    rw [List.foldl_map]
    rfl

/-- The group word count ignores the italic flag. -/
theorem groupWords_erase (g : List (ℕ × TextBlock)) :
    groupWords (g.map eraseIx) = groupWords g := by
  unfold groupWords
  rw [List.map_map]
  rfl

/-- The poster `max` key ignores the italic flag. -/
theorem groupKeyLT_erase (g1 g2 : List (ℕ × TextBlock)) :
    groupKeyLT (g1.map eraseIx) (g2.map eraseIx) ↔ groupKeyLT g1 g2 := by
  unfold groupKeyLT
  rw [groupMaxFS_erase, groupMaxFS_erase, groupWords_erase, groupWords_erase]

/-- The best-group choice commutes with erasing the italic flag. -/
theorem maxByGroupKey_erase (gs : List (List (ℕ × TextBlock))) :
    maxByGroupKey (gs.map (List.map eraseIx)) =
      Option.map (List.map eraseIx) (maxByGroupKey gs) := by
  cases gs with
  | nil => rfl
  | cons g r =>
    simp only [List.map_cons, maxByGroupKey, Option.map_some]
    congr 1
    refine foldl_E2' _ _ (List.map eraseIx) (List.map eraseIx) ?_ r _ g rfl
    intro s a
    dsimp only
    by_cases h : groupKeyLT s a
    · rw [if_pos ((groupKeyLT_erase s a).mpr h), if_pos h]
    · rw [if_neg (fun hc => h ((groupKeyLT_erase s a).mp hc)), if_neg h]

/-- The poster-candidate filter commutes with erasing the italic flag. -/
theorem posterCands_erase (cands : List TextBlock) (form : List String)
    (baseline : ℚ) :
    posterCands (cands.map eraseTB) form baseline =
      (posterCands cands form baseline).map eraseTB := by
  unfold posterCands
  exact @filterE (fun b =>
    !(form.any (fun lab => (upperS lab ++ ":") == upperS (pyStripS b.text))) &&
    !(posterJunk (lowerS b.text)) &&
    !(decide (50 < b.char_count) && decide (b.font_size < baseline)))
    (fun b => rfl) cands

/-- The poster branch ignores the italic flag. -/
theorem posterPath_erase (cands : List TextBlock) (form : List String)
    (baseline : ℚ) :
    posterPath (cands.map eraseTB) form baseline =
      posterPath cands form baseline := by
  simp only [posterPath, posterCands_erase, map_isEmpty_eq]
  split
  · rfl
  · rw [insertionSort_E yxLE eraseTB (fun a b => Iff.rfl), List.enum_map,
      show List.map (Prod.map id eraseTB)
          (List.insertionSort yxLE (posterCands cands form baseline)).enum =
        List.map eraseIx
          (List.insertionSort yxLE (posterCands cands form baseline)).enum from
        List.map_congr_left (fun p _ => rfl),
      phraseGroups_erase, maxByGroupKey_erase]
    cases hm : maxByGroupKey (phraseGroups
        (List.insertionSort yxLE (posterCands cands form baseline)).enum) with
    | none => rfl
    | some best =>
      rw [show Option.map (List.map eraseIx) (some best) =
        some (best.map eraseIx) from rfl]
      dsimp only
      rw [show (best.map eraseIx).map (fun p : ℕ × TextBlock => pyStripS p.2.text) =
        best.map (fun p => pyStripS p.2.text) from by rw [List.map_map]; rfl]

/-- The largest-fragment choice commutes with erasing the italic flag. -/
theorem maxByFontSize_erase (l : List TextBlock) :
    maxByFontSize (l.map eraseTB) = Option.map eraseTB (maxByFontSize l) := by
  cases l with
  | nil => rfl
  | cons b r =>
    simp only [List.map_cons, maxByFontSize, Option.map_some]
    congr 1
    refine foldl_E2' _ _ eraseTB eraseTB ?_ r _ b rfl
    intro s a
    dsimp only
    by_cases h : s.font_size < a.font_size
    · rw [if_pos (show (eraseTB s).font_size < (eraseTB a).font_size from h), if_pos h]
    · rw [if_neg (show ¬(eraseTB s).font_size < (eraseTB a).font_size from h), if_neg h]

/-- The best-heading choice commutes with erasing the italic flag. -/
theorem minByYNegSize_erase (l : List TextBlock) :
    minByYNegSize (l.map eraseTB) = Option.map eraseTB (minByYNegSize l) := by
  cases l with
  | nil => rfl
  | cons b r =>
    simp only [List.map_cons, minByYNegSize, Option.map_some]
    congr 1
    refine foldl_E2' _ _ eraseTB eraseTB ?_ r _ b rfl
    intro s a
    dsimp only
    by_cases h : keyYNegSizeLT a s
    · rw [if_pos (show keyYNegSizeLT (eraseTB a) (eraseTB s) from h), if_pos h]
    · rw [if_neg (show ¬keyYNegSizeLT (eraseTB a) (eraseTB s) from h), if_neg h]

/-- Erase the italic flags inside one cluster. -/
def eraseCl (e : (ℚ × Bool) × List TextBlock) : (ℚ × Bool) × List TextBlock :=
  (e.1, e.2.map eraseTB)

@[simp] theorem eraseCl_fst (e : (ℚ × Bool) × List TextBlock) : (eraseCl e).1 = e.1 := rfl

@[simp] theorem eraseCl_snd (e : (ℚ × Bool) × List TextBlock) :
    (eraseCl e).2 = e.2.map eraseTB := rfl

/-- `any` over a transported list, for any element type. -/
theorem anyME {α : Type} (φ : α → α) {p : α → Bool} (hp : ∀ a, p (φ a) = p a) :
    ∀ l : List α, (l.map φ).any p = l.any p := by
  intro l
  induction l with
  | nil => rfl
  | cons a t ih => simp only [List.map_cons, List.any_cons, hp, ih]

/-- Cluster appending commutes with erasing the italic flag. -/
theorem clAppend_erase (cl : List ((ℚ × Bool) × List TextBlock)) (k : ℚ × Bool)
    (b : TextBlock) :
    clAppend (cl.map eraseCl) k (eraseTB b) = (clAppend cl k b).map eraseCl := by
  unfold clAppend
  rw [@anyME ((ℚ × Bool) × List TextBlock) eraseCl (fun e => e.1 == k) (fun e => rfl) cl]
  split
  · rw [List.map_map, List.map_map]
    apply List.map_congr_left
    intro e _
    simp only [Function.comp_apply, eraseCl_fst, eraseCl_snd]
    by_cases he : (e.1 == k) = true
    · rw [if_pos he, if_pos he]
      simp [eraseCl]
    · rw [if_neg he, if_neg he]
  · simp [eraseCl]

/-- One clustering step commutes with erasing the italic flag. -/
theorem blsStep_erase (tiers : List ℚ)
    (st : LevelMap × List ((ℚ × Bool) × List TextBlock)) (b : TextBlock) :
    blsStep tiers (st.1, st.2.map eraseCl) (eraseTB b) =
      ((blsStep tiers st b).1, (blsStep tiers st b).2.map eraseCl) := by
  simp only [blsStep, eraseTB_numbering_pattern, eraseTB_font_size, eraseTB_is_bold]
  split
  · rfl
  · cases tiers.find? (fun t => |b.font_size - t| < 1/2) with
    | some t => rfl
    | none =>
      dsimp only
      rw [clAppend_erase]

/-- The cluster construction commutes with erasing the italic flag. -/
theorem buildLevelState_erase (tiers : List ℚ) (cands : List TextBlock) :
    buildLevelState tiers (cands.map eraseTB) =
      ((buildLevelState tiers cands).1,
        (buildLevelState tiers cands).2.map eraseCl) := by
  unfold buildLevelState
  exact foldl_E2' (blsStep tiers) (blsStep tiers)
    (fun st => (st.1, st.2.map eraseCl)) eraseTB
    (fun s a => blsStep_erase tiers s a) cands (lmapInit tiers, [])
    (lmapInit tiers, []) rfl

/-- The remaining-cluster level assignment ignores the italic flag. -/
theorem assignRemaining_erase (tiers : List ℚ) (lm : LevelMap)
    (rem : List ((ℚ × Bool) × List TextBlock)) :
    assignRemaining tiers lm (rem.map eraseCl) = assignRemaining tiers lm rem := by
  unfold assignRemaining
  rw [List.foldl_map]
  rfl

/-- The final sort key lookup ignores the italic flag. -/
theorem lookupY_erase (bs : List TextBlock) (t : String) :
    lookupY (bs.map eraseTB) t = lookupY bs t := by
  unfold lookupY
  rw [@findE (fun b => b.text == t) (fun b => rfl) bs]
  cases bs.find? (fun b => b.text == t) with
  | none => rfl
  | some b => rfl

/-- The outline-entry filter commutes with erasing the italic flag. -/
theorem outlineBlocks_erase (cands : List TextBlock) (tts : List String) :
    outlineBlocks (cands.map eraseTB) tts = (outlineBlocks cands tts).map eraseTB := by
  unfold outlineBlocks
  exact @filterE (fun b =>
    !(tts.contains b.text) && !(b.page_num == 0) &&
    !(b.numbering_pattern.isNone && b.text_case == "Lower" &&
      decide ((pyStripS b.text).data.length < 10))) (fun b => rfl) cands

/-- The general branch of `_pass3` ignores the italic flag. -/
theorem pass3General_erase (baseline : ℚ) (tiers : List ℚ)
    (bs cands : List TextBlock) (title : String) (tts : List String) :
    pass3General baseline tiers (bs.map eraseTB) (cands.map eraseTB) title tts =
      pass3General baseline tiers bs cands title tts := by
  simp only [pass3General, buildLevelState_erase]
  rw [insertionSort_E clusterLE eraseCl (fun a b => Iff.rfl), assignRemaining_erase,
    outlineBlocks_erase,
    @mapE OutlineEntry (mkEntryGeneral tiers (assignRemaining tiers
      (buildLevelState tiers cands).1
      (List.insertionSort clusterLE (buildLevelState tiers cands).2)))
      (fun b => rfl) (outlineBlocks cands tts)]
  exact congrArg (Prod.mk title)
    (insertionSort_congr
      (fun e1 e2 => by unfold entryLE; rw [lookupY_erase, lookupY_erase]) _)

/-- The number of distinct pages ignores the italic flag. -/
theorem totalPages_erase (bs : List TextBlock) :
    totalPages (bs.map eraseTB) = totalPages bs := by
  unfold totalPages pageSet
  rw [List.foldl_map]
  rfl

/-- The single-page branch of `_pass3` ignores the italic flag. -/
theorem pass3Single_erase (baseline : ℚ) (inds : Indicators)
    (bs candidates : List TextBlock) (title : String) (tts : List String) :
    pass3Single baseline inds (bs.map eraseTB) (candidates.map eraseTB) title tts =
      pass3Single baseline inds bs candidates title tts := by
  simp only [pass3Single,
    @anyME TextBlock eraseTB (fun b => b.numbering_pattern.isSome) (fun b => rfl) bs,
    @filterE (fun b => b.page_num == 0) (fun b => rfl) bs, maxByFontSize_erase]
  split
  · exact posterPath_erase candidates inds.form baseline
  · by_cases htitle : title = ""
    · rw [if_pos htitle, if_pos htitle]
      cases hmx : maxByFontSize (bs.filter (fun b => b.page_num == 0)) with
      | none =>
        simp only [Option.map]
        rw [@filterE (fun b => !(tts.contains b.text) &&
            ((b.text_case == "UPPER" && decide (5 < (pyStripS b.text).data.length)) ||
              decide (baseline * (6/5) ≤ b.font_size))) (fun b => rfl) candidates,
          minByYNegSize_erase]
        cases minByYNegSize (candidates.filter (fun b => !(tts.contains b.text) &&
            ((b.text_case == "UPPER" && decide (5 < (pyStripS b.text).data.length)) ||
              decide (baseline * (6/5) ≤ b.font_size)))) with
        | none => rfl
        | some best => simp
      | some largest =>
        simp only [Option.map, eraseTB_text]
        rw [@filterE (fun b => !((tts ++ [largest.text]).contains b.text) &&
            ((b.text_case == "UPPER" && decide (5 < (pyStripS b.text).data.length)) ||
              decide (baseline * (6/5) ≤ b.font_size))) (fun b => rfl) candidates,
          minByYNegSize_erase]
        cases minByYNegSize (candidates.filter
            (fun b => !((tts ++ [largest.text]).contains b.text) &&
            ((b.text_case == "UPPER" && decide (5 < (pyStripS b.text).data.length)) ||
              decide (baseline * (6/5) ≤ b.font_size)))) with
        | none => rfl
        | some best => simp
    · rw [if_neg htitle, if_neg htitle]
      rw [@filterE (fun b => !(tts.contains b.text) &&
          ((b.text_case == "UPPER" && decide (5 < (pyStripS b.text).data.length)) ||
            decide (baseline * (6/5) ≤ b.font_size))) (fun b => rfl) candidates,
        minByYNegSize_erase]
      cases minByYNegSize (candidates.filter (fun b => !(tts.contains b.text) &&
          ((b.text_case == "UPPER" && decide (5 < (pyStripS b.text).data.length)) ||
            decide (baseline * (6/5) ≤ b.font_size)))) with
      | none => rfl
      | some best => simp

/-- `_pass3` ignores the italic flag. -/
theorem pass3_erase (baseline : ℚ) (tiers : List ℚ) (inds : Indicators)
    (bs : List TextBlock) :
    pass3 baseline tiers inds (bs.map eraseTB) = pass3 baseline tiers inds bs := by
  simp only [pass3, totalPages_erase]
  rw [@filterE (candOK (totalPages bs == 1) baseline) (fun b => rfl) bs,
    titleStep_erase]
  cases htt : titleStep bs (totalPages bs) with
  | none => rfl
  | some tt =>
    simp only [Option.map]
    split
    · rw [@mapE String (fun b : TextBlock => b.text) (fun b => rfl) tt.2]
      exact pass3Single_erase baseline inds bs
        (bs.filter (candOK (totalPages bs == 1) baseline)) tt.1
        (tt.2.map (fun b => b.text))
    · rw [@mapE String (fun b : TextBlock => b.text) (fun b => rfl) tt.2]
      exact pass3General_erase baseline tiers bs
        (bs.filter (candOK (totalPages bs == 1) baseline)) tt.1
        (tt.2.map (fun b => b.text))

/-- Erasing every italic flag of the input does not change the output of
`analyze_document`. -/
theorem analyzeDocument_erase (l : PatternLearner) (raw : List RawBlock) (pw : ℚ) :
    analyzeDocument l (raw.map eraseRawB) pw = analyzeDocument l raw pw := by
  simp only [analyzeDocument, map_mk_erase, inds_erase, learnUpdateAll_erase,
    pass1_erase, pass2_erase]
  cases pass2 (pass1 pw (learnUpdateAll l (raw.map mkTextBlock))) with
  | none => rfl
  | some r =>
    dsimp only
    exact congrArg some (pass3_erase r.1 r.2.1 _ r.2.2)

/-- Claim C10: the output of `analyze_document` is independent of the
`is_italic` flags — two fragment lists that agree after erasing every
italic flag produce identical `(title, outline)` results, because
`is_italic` is stored by `__init__` but never read by any pass. -/
theorem C10_italics_independent (l : PatternLearner) (raw1 raw2 : List RawBlock)
    (pw : ℚ) (h : raw1.map eraseRawB = raw2.map eraseRawB) :
    analyzeDocument l raw1 pw = analyzeDocument l raw2 pw := by
  rw [← analyzeDocument_erase l raw1 pw, ← analyzeDocument_erase l raw2 pw, h]

/-- `ex2raw` with two italic flags flipped on. -/
def ex2rawItal : List RawBlock :=
  [⟨"A Research Document About Things", 20, "Helvetica", 50, 100, 350, 110, 0, true⟩,
   ⟨"This is the body text of the document.", 10, "Helvetica", 50, 500, 300, 510, 0, false⟩,
   ⟨"Another line of plain body text here.", 10, "Helvetica", 50, 520, 300, 530, 0, true⟩,
   ⟨"Introduction And Background Wow", 20, "Helvetica", 50, 100, 350, 110, 1, false⟩,
   ⟨"12. Research Overview", 16, "Helvetica", 50, 150, 250, 160, 1, true⟩,
   ⟨"also more plain body text here", 10, "Helvetica", 50, 400, 300, 410, 1, false⟩]

/-- Witness for C10: `ex2raw` and its italic-flipped variant agree after
erasure and get identical outputs. -/
theorem C10_italics_independent_witness :
    ex2raw.map eraseRawB = ex2rawItal.map eraseRawB ∧
    analyzeDocument freshLearner ex2raw 400 =
      analyzeDocument freshLearner ex2rawItal 400 :=
  ⟨by decide,
    C10_italics_independent freshLearner ex2raw ex2rawItal 400 (by decide)⟩
